import Mathlib

/-!
Shallow embedding of the Portfolio-02 preprocessing pipelines
(`preprocess_metrics.py`, `preprocess_publications.py`, `preprocess_sdm.py`,
`schemas.py`) and proofs of the specification claims about them.

Strings are modelled as Lean `String`s; the ASCII case functions
`Char.toUpper`/`Char.toLower` model Python's `str.upper`/`str.lower`
(all case-sensitive data handled by the pipelines is ASCII; accented
characters in the campus tables only ever occur in lowercase, where both
agree).  Absent JSON keys with a `.get(k, d)` default are modelled as
`Option` fields read with `Option.getD`.
-/

/-- `needle` occurs as a prefix of `hay` (character lists). -/
def isPreOf : List Char → List Char → Bool
  | [], _ => true
  | _ :: _, [] => false
  | a :: as, b :: bs => a = b && isPreOf as bs

/-- Python's substring test `needle in hay` on character lists. -/
def containsSub (needle : List Char) : List Char → Bool
  | [] => needle.isEmpty
  | c :: rest => isPreOf needle (c :: rest) || containsSub needle rest

/-- `needle in hay` for strings. -/
def strContains (hay needle : String) : Bool := containsSub needle.data hay.data

/-- Python `str.upper()` (ASCII model). -/
def upperStr (s : String) : String := String.mk (s.data.map Char.toUpper)

/-- Python `str.lower()` (ASCII model). -/
def lowerStr (s : String) : String := String.mk (s.data.map Char.toLower)

/-- Python regex class `\w` (word character), ASCII model. -/
def isWordChar (c : Char) : Bool := c.isAlphanum || c = '_'

/-- Python regex class `\s` (whitespace character). -/
def isSpaceChar (c : Char) : Bool :=
  c = ' ' || c = '\t' || c = '\n' || c = '\r' || c = '\x0b' || c = '\x0c'

/-- Python `str.strip()`: drop whitespace from both ends. -/
def stripStr (s : String) : String :=
  String.mk (((s.data.dropWhile isSpaceChar).reverse.dropWhile isSpaceChar).reverse)

/-- Python `dict.get(key, default)` on an association-list literal. -/
def lookupD : List (String × String) → String → String → String
  | [], _, d => d
  | (k, v) :: rest, key, d => if k = key then v else lookupD rest key d

namespace Schemas

/-- The `CAMPUS_MAPPING` literal of `schemas.py` (code → display name). -/
def CAMPUS_MAPPING : List (String × String) :=
  [("MTY", "Monterrey"), ("PUE", "Puebla"), ("GDL", "Guadalajara"),
   ("CDJ", "Ciudad Juárez"), ("TOL", "Toluca"), ("CCM", "Ciudad de México"),
   ("CEM", "Estado de México"), ("QRO", "Querétaro"), ("CHI", "Chihuahua"),
   ("SIN", "Sinaloa"), ("AGS", "Aguascalientes"), ("COB", "Ciudad Obregón"),
   ("LEO", "León"), ("LAG", "Laguna"), ("SON", "Sonora"), ("HGO", "Hidalgo"),
   ("SLP", "San Luis Potosí"), ("CVA", "Cuernavaca"), ("CSF", "Santa Fe"),
   ("SAL", "Saltillo")]

end Schemas

namespace Metrics

/-- The local `CAMPUS_MAPPING` literal of `extract_campus_from_region` in
`preprocess_metrics.py` (code → display name). -/
def CAMPUS_MAPPING : List (String × String) :=
  [("MTY", "Monterrey"), ("PUE", "Puebla"), ("GDL", "Guadalajara"),
   ("CDJ", "Cd. Juárez"), ("TOL", "Toluca"), ("CCM", "Ciudad de México"),
   ("CEM", "Estado de México"), ("QRO", "Querétaro"), ("CHI", "Chihuahua"),
   ("SIN", "Sinaloa"), ("AGS", "Aguascalientes"), ("COB", "Cd. Obregón"),
   ("LEO", "León"), ("LAG", "Laguna"), ("SON", "Sonora"), ("HGO", "Hidalgo"),
   ("SLP", "San Luis Potosí"), ("CVA", "Cuernavaca"), ("CSF", "Santa Fe"),
   ("SAL", "Saltillo")]

/-- `re.search(r'\((\w+)\)', region)`: the captured group of the leftmost
match — the first `'('` that is immediately followed by a nonempty run of
word characters and then `')'`.  (The greedy `\w+` never needs to backtrack
because `')'` is not a word character.) -/
def parenToken : List Char → Option (List Char)
  | [] => none
  | c :: rest =>
    if c = '(' then
      match rest.takeWhile isWordChar, rest.dropWhile isWordChar with
      | tok@(_ :: _), ')' :: _ => some tok
      | _, _ => parenToken rest
    else parenToken rest

/-- First table code occurring as a substring of the uppercased region text
(strategy 2 of `extract_campus_from_region`), with its table name. -/
def findCode (regionUpper : List Char) : List (String × String) → Option (String × String)
  | [] => none
  | (code, name) :: rest =>
    if containsSub code.data regionUpper then some (code, name)
    else findCode regionUpper rest

/-- First table display name whose lowercasing occurs as a substring of the
lowercased region text (strategy 3 of `extract_campus_from_region`). -/
def findName (regionLower : List Char) : List (String × String) → Option (String × String)
  | [] => none
  | (code, name) :: rest =>
    if containsSub (lowerStr name).data regionLower then some (code, name)
    else findName regionLower rest

/-- `extract_campus_from_region` of `preprocess_metrics.py`. -/
def extract_campus_from_region (region : String) : String × String :=
  match parenToken region.data with
  | some tok =>
    let campus_id := String.mk (tok.map Char.toUpper)
    (campus_id, lookupD CAMPUS_MAPPING campus_id campus_id)
  | none =>
    match findCode (region.data.map Char.toUpper) CAMPUS_MAPPING with
    | some (code, name) => (code, name)
    | none =>
      match findName (region.data.map Char.toLower) CAMPUS_MAPPING with
      | some (code, name) => (code, name)
      | none =>
        if region.data.length ≥ 3 then
          (String.mk ((region.data.take 3).map Char.toUpper), region)
        else ("UNK", region)

/-- One parsed line of a metrics input file.  A field is `none` when the
JSON object lacks the key (or holds `null`). -/
structure MetricRec where
  REGION : Option String
  POST_COMMENTS__SUM : Option Int
  ALCANCE_TOTAL : Option Rat
  VOLUMEN_DE_PUBLICACIONES : Option Int
  INTERACCIONES_TOTALES : Option Int
deriving DecidableEq, Repr

/-- The four-counter metrics dict built by `process_metrics` for one period. -/
structure PeriodMetrics where
  POST_COMMENTS__SUM : Int
  ALCANCE_TOTAL : Rat
  VOLUMEN_DE_PUBLICACIONES : Int
  INTERACCIONES_TOTALES : Int
deriving DecidableEq, Repr

/-- One merged entry of the metrics output (`region_combined`). -/
structure RegionCombined where
  campus_id : String
  campus_name : String
  current_month : PeriodMetrics
  previous_year_month : PeriodMetrics
deriving DecidableEq, Repr

/-- The `.get(key, 0)` / `.get(key, 0.0)` defaulted counters of one record. -/
def metricsOf (r : MetricRec) : PeriodMetrics :=
  { POST_COMMENTS__SUM := r.POST_COMMENTS__SUM.getD 0,
    ALCANCE_TOTAL := r.ALCANCE_TOTAL.getD 0,
    VOLUMEN_DE_PUBLICACIONES := r.VOLUMEN_DE_PUBLICACIONES.getD 0,
    INTERACCIONES_TOTALES := r.INTERACCIONES_TOTALES.getD 0 }

/-- The zero-filled previous-period metrics dict. -/
def zeroMetrics : PeriodMetrics :=
  { POST_COMMENTS__SUM := 0, ALCANCE_TOTAL := 0,
    VOLUMEN_DE_PUBLICACIONES := 0, INTERACCIONES_TOTALES := 0 }

/-- `previous_lookup.get(region_str, None)` for the dict comprehension
`{item['REGION']: item for item in previous_data}`: the LAST record whose
`REGION` equals the key (later duplicate keys overwrite earlier ones). -/
def lookupPrevRegion : List MetricRec → String → Option MetricRec
  | [], _ => none
  | p :: rest, key =>
    match lookupPrevRegion rest key with
    | some q => some q
    | none => if p.REGION = some key then some p else none

/-- The body of the `for current in current_data` loop of `process_metrics`:
one `region_combined` object. -/
def combineOne (prev : List MetricRec) (current : MetricRec) : RegionCombined :=
  let region_str := current.REGION.getD ""
  let ids := extract_campus_from_region region_str
  { campus_id := ids.1, campus_name := ids.2,
    current_month := metricsOf current,
    previous_year_month :=
      match lookupPrevRegion prev region_str with
      | some p => metricsOf p
      | none => zeroMetrics }

/-- The pure core of `process_metrics`: building `previous_lookup` raises
`KeyError` (modelled as `Except.error ()`) as soon as some previous record
lacks the `REGION` key; otherwise one merged entry is emitted per current
record, in current input order. -/
def process_metrics (cur prev : List MetricRec) : Except Unit (List RegionCombined) :=
  if prev.all (fun p => p.REGION.isSome) then Except.ok (cur.map (combineOne prev))
  else Except.error ()

end Metrics

namespace SDM

/-- The local `CAMPUS_MAPPING` literal of `map_campus_name_to_id` in
`preprocess_sdm.py` (display name → code). -/
def CAMPUS_MAPPING : List (String × String) :=
  [("Monterrey", "MTY"), ("Puebla", "PUE"), ("Guadalajara", "GDL"),
   ("Ciudad Juárez", "CDJ"), ("Toluca", "TOL"), ("Ciudad de México", "CCM"),
   ("Estado de México", "CEM"), ("Querétaro", "QRO"), ("Chihuahua", "CHI"),
   ("Sinaloa", "SIN"), ("Aguascalientes", "AGS"), ("Ciudad Obregón", "COB"),
   ("León", "LEO"), ("Laguna", "LAG"), ("Sonora", "SON"), ("Hidalgo", "HGO"),
   ("San Luis Potosí", "SLP"), ("Cuernavaca", "CVA"), ("Santa Fe", "CSF"),
   ("Saltillo", "SAL")]

/-- First table entry whose full name is a case-insensitive substring of the
input name. -/
def findNameSub (nameLower : List Char) : List (String × String) → Option String
  | [] => none
  | (full_name, code) :: rest =>
    if containsSub (lowerStr full_name).data nameLower then some code
    else findNameSub nameLower rest

/-- `map_campus_name_to_id` of `preprocess_sdm.py`. -/
def map_campus_name_to_id (campus_name : String) : String :=
  match findNameSub (campus_name.data.map Char.toLower) CAMPUS_MAPPING with
  | some code => code
  | none => String.mk ((campus_name.data.take 3).map Char.toUpper)

/-- `categorize_score` of `preprocess_sdm.py`. -/
def categorize_score (score : Option Int) : Option String :=
  match score with
  | none => none
  | some s =>
    if s ≤ 75 then some "deficiente"
    else if s ≤ 100 then some "regular"
    else if s ≤ 120 then some "satisfactorio"
    else if s ≤ 140 then some "sobresaliente"
    else some "excepcional"

/-- Rank of a category label in the threshold table (specification side). -/
def categoryRank (c : String) : Nat :=
  if c = "deficiente" then 0
  else if c = "regular" then 1
  else if c = "satisfactorio" then 2
  else if c = "sobresaliente" then 3
  else 4

/-- Nonempty all-digit character list to its numeric value (`int(...)`). -/
def digitsToNat (cs : List Char) : Option Nat :=
  if cs.isEmpty then none
  else cs.foldl (fun acc c =>
    match acc with
    | none => none
    | some n => if c.isDigit then some (n * 10 + (c.toNat - 48)) else none) (some 0)

/-- Python `int(string)` on an already-stripped string: optional sign then
digits; anything else raises `ValueError` (modelled as `none`). -/
def parseIntStr : List Char → Option Int
  | '-' :: rest => (digitsToNat rest).map (fun n => -(n : Int))
  | '+' :: rest => (digitsToNat rest).map (fun n => (n : Int))
  | cs => (digitsToNat cs).map (fun n => (n : Int))

/-- `parse_score` of `preprocess_sdm.py`. -/
def parse_score (value : String) : Option Int :=
  if value = "" || lowerStr value = "calificaciones" then none
  else parseIntStr (value.data.filter (fun c => c ≠ ','))

/-- `normalize_score_name` of `preprocess_sdm.py`. -/
def normalize_score_name (score_name : String) : String :=
  if lowerStr score_name = "salud de marca" then "salud_de_marca" else lowerStr score_name

/-- The per-platform score-set dict (`PlatformScores` schema shape). -/
structure PlatformScores where
  visibilidad : Option Int := none
  visibilidad_categoria : Option String := none
  resonancia : Option Int := none
  resonancia_categoria : Option String := none
  permanencia : Option Int := none
  permanencia_categoria : Option String := none
  sentimiento : Option Int := none
  sentimiento_categoria : Option String := none
  salud_de_marca : Option Int := none
  salud_de_marca_categoria : Option String := none
deriving DecidableEq, Repr

/-- `current_campus[current_platform][score_type] = v` together with the
paired `..._categoria` write. -/
def setScoreOn (ps : PlatformScores) (score_type : String) (v : Option Int)
    (cat : Option String) : PlatformScores :=
  if score_type = "visibilidad" then
    { ps with visibilidad := v, visibilidad_categoria := cat }
  else if score_type = "resonancia" then
    { ps with resonancia := v, resonancia_categoria := cat }
  else if score_type = "permanencia" then
    { ps with permanencia := v, permanencia_categoria := cat }
  else if score_type = "sentimiento" then
    { ps with sentimiento := v, sentimiento_categoria := cat }
  else if score_type = "salud_de_marca" then
    { ps with salud_de_marca := v, salud_de_marca_categoria := cat }
  else ps

/-- The per-campus accumulator dict built by `parse_campus_scores_csv`. -/
structure CampusPerf where
  campus_id : String
  campus_name : String
  facebook : PlatformScores
  twitter : PlatformScores
  instagram : PlatformScores
  totales : PlatformScores
deriving DecidableEq, Repr

/-- Update the sub-dict selected by `current_platform`. -/
def setPlatform (cc : CampusPerf) (pl : String) (f : PlatformScores → PlatformScores) :
    CampusPerf :=
  if pl = "facebook" then { cc with facebook := f cc.facebook }
  else if pl = "twitter" then { cc with twitter := f cc.twitter }
  else if pl = "instagram" then { cc with instagram := f cc.instagram }
  else if pl = "totales" then { cc with totales := f cc.totales }
  else cc

/-- The mutable state of the CSV scan: the completed-campus list and the two
nullable accumulators. -/
structure ParserSt where
  campuses : List CampusPerf
  current : Option CampusPerf
  currentPlatform : Option String
deriving DecidableEq, Repr

/-- One iteration of the `for row in reader` loop of
`parse_campus_scores_csv`. -/
def stepRow (st : ParserSt) (row : List String) : ParserSt :=
  match row with
  | a :: b :: _ =>
    let left_col := lowerStr (stripStr a)
    let right_col := stripStr b
    if left_col = "campus" then
      let flushed := match st.current with
        | some cc => st.campuses ++ [cc]
        | none => st.campuses
      { campuses := flushed,
        current := some
          { campus_id := map_campus_name_to_id right_col, campus_name := right_col,
            facebook := {}, twitter := {}, instagram := {}, totales := {} },
        currentPlatform := none }
    else if left_col = "facebook" ∨ left_col = "twitter" ∨ left_col = "instagram" ∨
        left_col = "totales" then
      { st with currentPlatform := some left_col }
    else if left_col = "visibilidad" ∨ left_col = "resonancia" ∨
        left_col = "permanencia" ∨ left_col = "sentimiento" ∨
        left_col = "salud de marca" then
      let score_type := normalize_score_name left_col
      let score_value := parse_score right_col
      let category := categorize_score score_value
      match st.currentPlatform, st.current with
      | some pl, some cc =>
        let cc2 := setPlatform cc pl (fun ps => setScoreOn ps score_type score_value category)
        { st with current := some cc2 }
      | _, _ => st
    else st
  | _ => st

/-- The pure core of `parse_campus_scores_csv` over already-split CSV rows:
the row scan followed by the end-of-input flush of `current_campus`. -/
def parse_campus_scores_csv (rows : List (List String)) : List CampusPerf :=
  let final := rows.foldl stepRow { campuses := [], current := none, currentPlatform := none }
  match final.current with
  | some cc => final.campuses ++ [cc]
  | none => final.campuses

/-- Specification side: the trimmed right column of every row having at
least two columns whose trimmed, lowercased left column is `"campus"`, in
file order. -/
def campusHeaderNames (rows : List (List String)) : List String :=
  rows.filterMap (fun row =>
    match row with
    | a :: b :: _ => if lowerStr (stripStr a) = "campus" then some (stripStr b) else none
    | _ => none)

end SDM

namespace Pubs

/-- One parsed line of the raw publications input.  The string fields model
`pub.get(key, '')` (an absent key is the empty string); the two numeric
fields model `pub.get(key, 0) or 0` (absent or `null` is `none`). -/
structure RawPub where
  ACCOUNT : String
  SOCIAL_NETWORK : String
  INTERACCIONES_GENERAL__SUM : Option Int
  ALCANCE_GENERAL__SUM : Option Int
  PUBLISHEDTIME : String
  OUTBOUND_POST : String
deriving DecidableEq, Repr

/-- The `filtered_pub` dict kept for one surviving record. -/
structure Publication where
  PUBLISHEDTIME : String
  SOCIAL_NETWORK : String
  INTERACCIONES_GENERAL__SUM : Int
  ACCOUNT : String
  ALCANCE_GENERAL__SUM : Int
  OUTBOUND_POST : String
  engagement_score : Int
deriving DecidableEq, Repr

/-- Case-insensitively strip the literal `Campus` from the front of the
character list (the keyword of `re.search(r'Campus\s+(\w+)\s+\[', ...,
re.IGNORECASE)`). -/
def stripCampusKw : List Char → Option (List Char)
  | c1 :: c2 :: c3 :: c4 :: c5 :: c6 :: rest =>
    if c1.toLower = 'c' && c2.toLower = 'a' && c3.toLower = 'm' && c4.toLower = 'p' &&
        c5.toLower = 'u' && c6.toLower = 's' then some rest
    else none
  | _ => none

/-- Try to match `Campus\s+(\w+)\s+\[` at the start of the character list,
returning the captured `\w+` token.  Greedy `\s+`/`\w+` need no
backtracking here because the classes `\w`, `\s` and `'['` are pairwise
disjoint. -/
def matchTagAt (cs : List Char) : Option (List Char) :=
  match stripCampusKw cs with
  | none => none
  | some rest =>
    let sp1 := rest.takeWhile isSpaceChar
    let r1 := rest.dropWhile isSpaceChar
    let tok := r1.takeWhile isWordChar
    let r2 := r1.dropWhile isWordChar
    let sp2 := r2.takeWhile isSpaceChar
    let r3 := r2.dropWhile isSpaceChar
    match sp1, tok, sp2, r3 with
    | _ :: _, _ :: _, _ :: _, '[' :: _ => some tok
    | _, _, _, _ => none

/-- `re.search` for the campus-tag pattern: leftmost position at which the
pattern matches. -/
def searchTag : List Char → Option (List Char)
  | [] => none
  | c :: rest =>
    match matchTagAt (c :: rest) with
    | some tok => some tok
    | none => searchTag rest

/-- The campus-code extraction of `filter_publications`: the captured token
of the account tag, uppercased; `none` when the pattern does not match. -/
def extractCampusId (account : String) : Option String :=
  (searchTag account.data).map (fun tok => String.mk (tok.map Char.toUpper))

/-- The platform normalization of `filter_publications`: case-insensitive
substring `"instagram"`, else `"facebook"`, else drop. -/
def classifyPlatform (social_network : String) : Option String :=
  if strContains (lowerStr social_network) "instagram" then some "instagram"
  else if strContains (lowerStr social_network) "facebook" then some "facebook"
  else none

/-- The `filtered_pub` built for a surviving raw record, with
`engagement_score = interactions * 10 + alcance`. -/
def mkFiltered (pub : RawPub) : Publication :=
  let interactions := pub.INTERACCIONES_GENERAL__SUM.getD 0
  let alcance := pub.ALCANCE_GENERAL__SUM.getD 0
  { PUBLISHEDTIME := pub.PUBLISHEDTIME,
    SOCIAL_NETWORK := pub.SOCIAL_NETWORK,
    INTERACCIONES_GENERAL__SUM := interactions,
    ACCOUNT := pub.ACCOUNT,
    ALCANCE_GENERAL__SUM := alcance,
    OUTBOUND_POST := pub.OUTBOUND_POST,
    engagement_score := interactions * 10 + alcance }

/-- The survival test of the grouping loop: a record contributes
`(campus_id, platform, filtered_pub)` iff the account tag matches and the
platform is Instagram or Facebook. -/
def processRec (pub : RawPub) : Option (String × String × Publication) :=
  match extractCampusId pub.ACCOUNT with
  | none => none
  | some campus_id =>
    match classifyPlatform pub.SOCIAL_NETWORK with
    | none => none
    | some platform => some (campus_id, platform, mkFiltered pub)

/-- Inner dict of `campus_platform_posts`: platform → posts, in platform
first-seen order (Python dict insertion order). -/
abbrev Inner := List (String × List Publication)

/-- Outer dict of `campus_platform_posts`: campus → inner dict, in campus
first-seen order. -/
abbrev Outer := List (String × Inner)

/-- `campus_platform_posts[campus_id][platform].append(filtered_pub)` on the
inner dict. -/
def insertInner (pl : String) (pub : Publication) : Inner → Inner
  | [] => [(pl, [pub])]
  | (k, ps) :: rest =>
    if k = pl then (k, ps ++ [pub]) :: rest else (k, ps) :: insertInner pl pub rest

/-- `campus_platform_posts[campus_id][platform].append(filtered_pub)` on the
outer dict. -/
def insertOuter (c pl : String) (pub : Publication) : Outer → Outer
  | [] => [(c, [(pl, [pub])])]
  | (k, inner) :: rest =>
    if k = c then (k, insertInner pl pub inner) :: rest
    else (k, inner) :: insertOuter c pl pub rest

/-- The grouping loop of `filter_publications`. -/
def groupPubs (input : List RawPub) : Outer :=
  input.foldl (fun st pub =>
    match processRec pub with
    | none => st
    | some (c, pl, fp) => insertOuter c pl fp st) []

/-- `platform_limits.get(platform, 0)`. -/
def platformLimit (pl : String) : Nat :=
  if pl = "instagram" then 4 else if pl = "facebook" then 4 else 0

/-- Insert `p` in front of the first element whose engagement score is at
most `p`'s (descending stable insertion). -/
def ordIns (p : Publication) : List Publication → List Publication
  | [] => [p]
  | q :: l =>
    if q.engagement_score ≤ p.engagement_score then p :: q :: l else q :: ordIns p l

/-- Python's stable `sorted(posts, key=lambda x: x['engagement_score'],
reverse=True)`: descending by score, equal scores keep input order. -/
def sortDesc : List Publication → List Publication
  | [] => []
  | p :: l => ordIns p (sortDesc l)

/-- The per-campus `campus_posts` list: for each platform of the inner dict
in insertion order, the top-`limit` slice of the stably sorted posts. -/
def campusPubs (inner : Inner) : List Publication :=
  inner.flatMap (fun e =>
    let limit := platformLimit e.1
    if limit > 0 then (sortDesc e.2).take limit else [])

/-- One line of the output: campus id with its pre-grouped publications. -/
structure CampusGroup where
  campus_id : String
  publications : List Publication
deriving DecidableEq, Repr

/-- The pure core of `filter_publications`: the grouped, ranked, truncated
output lines in campus first-seen order. -/
def filter_publications (input : List RawPub) : List CampusGroup :=
  (groupPubs input).map (fun e => { campus_id := e.1, publications := campusPubs e.2 })

/-- Specification side: the filtered publications of campus `c` and platform
`pl`, in input order. -/
def survivors (input : List RawPub) (c pl : String) : List Publication :=
  input.filterMap (fun pub =>
    match processRec pub with
    | some (c', pl', fp) => if c' = c ∧ pl' = pl then some fp else none
    | none => none)

/-- Specification side: the campus codes of the surviving records, with
multiplicity, in input order. -/
def survivorCampuses (input : List RawPub) : List String :=
  input.filterMap (fun pub => (processRec pub).map (fun t => t.1))

/-- Specification side: the platforms of the surviving records of campus
`c`, with multiplicity, in input order. -/
def survivorPlatformsOf (input : List RawPub) (c : String) : List String :=
  input.filterMap (fun pub =>
    match processRec pub with
    | some (c', pl, _) => if c' = c then some pl else none
    | none => none)

/-- Append `x` unless already present (first-seen deduplication step). -/
def insNew (l : List String) (x : String) : List String :=
  if x ∈ l then l else l ++ [x]

/-- First-seen deduplication of a list (Python dict key order). -/
def seenList (xs : List String) : List String := xs.foldl insNew []

/-- Specification side: campus codes in first-seen order. -/
def seenCampuses (input : List RawPub) : List String := seenList (survivorCampuses input)

/-- Specification side: platforms of campus `c` in first-seen order. -/
def seenPlatforms (input : List RawPub) (c : String) : List String :=
  seenList (survivorPlatformsOf input c)

/-- Specification side: the records of one output group belonging to
platform `pl` (identified by the platform classification of their
`SOCIAL_NETWORK` field), in list order. -/
def platOf (g : CampusGroup) (pl : String) : List Publication :=
  g.publications.filter (fun p => classifyPlatform p.SOCIAL_NETWORK = some pl)

end Pubs

namespace SDM

/-- Specification side: the campus name of the pending accumulator, as a
zero- or one-element list. -/
def currentNames (st : ParserSt) : List String :=
  match st.current with
  | some cc => [cc.campus_name]
  | none => []

/-- Specification side: the number of rows whose trimmed, lowercased left
column equals `"campus"` (with no requirement on the number of columns) —
the literal reading of the flush-correctness claim. -/
def claimCampusRowCount (rows : List (List String)) : Nat :=
  rows.countP (fun row =>
    match row.head? with
    | some a => lowerStr (stripStr a) = "campus"
    | none => false)

end SDM

/-! Concrete input fixtures used by the witness and counterexample
theorems. -/

/-- A raw Instagram record for campus MTY. -/
def rIGw : Pubs.RawPub :=
  { ACCOUNT := "Campus MTY [IG]", SOCIAL_NETWORK := "Instagram",
    INTERACCIONES_GENERAL__SUM := some 3, ALCANCE_GENERAL__SUM := none,
    PUBLISHEDTIME := "t2", OUTBOUND_POST := "u2" }

/-- The filtered publication produced from `rIGw`. -/
def pubIGw : Pubs.Publication :=
  { PUBLISHEDTIME := "t2", SOCIAL_NETWORK := "Instagram",
    INTERACCIONES_GENERAL__SUM := 3, ACCOUNT := "Campus MTY [IG]",
    ALCANCE_GENERAL__SUM := 0, OUTBOUND_POST := "u2", engagement_score := 30 }

/-- The output group produced from the input `[rIGw]`. -/
def gW : Pubs.CampusGroup := { campus_id := "MTY", publications := [pubIGw] }

/-- A raw Facebook record for campus MTY, arriving before any Instagram
record. -/
def rFBc : Pubs.RawPub :=
  { ACCOUNT := "Campus MTY [FB]", SOCIAL_NETWORK := "Facebook",
    INTERACCIONES_GENERAL__SUM := some 1, ALCANCE_GENERAL__SUM := some 2,
    PUBLISHEDTIME := "t1", OUTBOUND_POST := "u1" }

/-- A raw Instagram record for campus MTY, arriving after `rFBc`. -/
def rIGc : Pubs.RawPub :=
  { ACCOUNT := "Campus MTY [IG]", SOCIAL_NETWORK := "Instagram",
    INTERACCIONES_GENERAL__SUM := some 3, ALCANCE_GENERAL__SUM := some 4,
    PUBLISHEDTIME := "t2", OUTBOUND_POST := "u2" }

/-- A current-period metrics record with region text `"Campus Monterrey (MTY)"`. -/
def cRecA : Metrics.MetricRec :=
  { REGION := some "Campus Monterrey (MTY)", POST_COMMENTS__SUM := some 5,
    ALCANCE_TOTAL := none, VOLUMEN_DE_PUBLICACIONES := some 2,
    INTERACCIONES_TOTALES := some 500 }

/-- A current-period metrics record whose distinct region text also resolves
to campus MTY. -/
def cRecB : Metrics.MetricRec :=
  { REGION := some "Tec Monterrey (MTY)", POST_COMMENTS__SUM := none,
    ALCANCE_TOTAL := none, VOLUMEN_DE_PUBLICACIONES := none,
    INTERACCIONES_TOTALES := some 7 }

/-- The merged output for current records `[cRecA, cRecB]` and an empty
previous period. -/
def outW : List Metrics.RegionCombined :=
  [{ campus_id := "MTY", campus_name := "Monterrey",
     current_month := { POST_COMMENTS__SUM := 5, ALCANCE_TOTAL := 0,
                        VOLUMEN_DE_PUBLICACIONES := 2, INTERACCIONES_TOTALES := 500 },
     previous_year_month := Metrics.zeroMetrics },
   { campus_id := "MTY", campus_name := "Monterrey",
     current_month := { POST_COMMENTS__SUM := 0, ALCANCE_TOTAL := 0,
                        VOLUMEN_DE_PUBLICACIONES := 0, INTERACCIONES_TOTALES := 7 },
     previous_year_month := Metrics.zeroMetrics }]

/-- A metrics record lacking the `REGION` key. -/
def mNoRegion : Metrics.MetricRec :=
  { REGION := none, POST_COMMENTS__SUM := some 1, ALCANCE_TOTAL := none,
    VOLUMEN_DE_PUBLICACIONES := some 1, INTERACCIONES_TOTALES := some 1 }

/-- The merged output for the single current record `mNoRegion` and an
empty previous period. -/
def outNoRegion : List Metrics.RegionCombined :=
  [{ campus_id := "UNK", campus_name := "",
     current_month := { POST_COMMENTS__SUM := 1, ALCANCE_TOTAL := 0,
                        VOLUMEN_DE_PUBLICACIONES := 1, INTERACCIONES_TOTALES := 1 },
     previous_year_month := Metrics.zeroMetrics }]

/-! ## Theorems -/

/-- C2 (counterexample): the three campus tables do NOT all associate every
code with the identical display name.  At code `"CDJ"` the metrics-pipeline
literal holds `"Cd. Juárez"` while the schema-module literal holds
`"Ciudad Juárez"`. -/
theorem c2_counterexample :
    ("CDJ", "Cd. Juárez") ∈ Metrics.CAMPUS_MAPPING ∧
    ("CDJ", "Ciudad Juárez") ∈ Schemas.CAMPUS_MAPPING ∧
    lookupD Metrics.CAMPUS_MAPPING "CDJ" "" ≠ lookupD Schemas.CAMPUS_MAPPING "CDJ" "" := by
  decide

/-- C2 (amended): the scores-pipeline and schema-module tables agree on all
20 code/display-name associations; the metrics-pipeline table agrees with
them on the 18 codes other than `CDJ` and `COB`, where it abbreviates the
display names to `"Cd. Juárez"` and `"Cd. Obregón"`. -/
theorem c2_tables_agree_except_cdj_cob :
    (Schemas.CAMPUS_MAPPING.all (fun p => decide ((p.2, p.1) ∈ SDM.CAMPUS_MAPPING))) = true ∧
    (SDM.CAMPUS_MAPPING.all (fun p => decide ((p.2, p.1) ∈ Schemas.CAMPUS_MAPPING))) = true ∧
    (Metrics.CAMPUS_MAPPING.all (fun p =>
      p.1 = "CDJ" || p.1 = "COB" || decide (p ∈ Schemas.CAMPUS_MAPPING))) = true ∧
    lookupD Metrics.CAMPUS_MAPPING "CDJ" "" = "Cd. Juárez" ∧
    lookupD Schemas.CAMPUS_MAPPING "CDJ" "" = "Ciudad Juárez" ∧
    lookupD Metrics.CAMPUS_MAPPING "COB" "" = "Cd. Obregón" ∧
    lookupD Schemas.CAMPUS_MAPPING "COB" "" = "Ciudad Obregón" := by
  decide

/-- C4: `categorize_score` maps null to null, matches the threshold table
exactly on every integer score, and is monotone with respect to the
category ranking. -/
theorem c4_categorize_thresholds_monotone :
    SDM.categorize_score none = none ∧
    (∀ s : Int,
      (s ≤ 75 → SDM.categorize_score (some s) = some "deficiente") ∧
      (76 ≤ s → s ≤ 100 → SDM.categorize_score (some s) = some "regular") ∧
      (101 ≤ s → s ≤ 120 → SDM.categorize_score (some s) = some "satisfactorio") ∧
      (121 ≤ s → s ≤ 140 → SDM.categorize_score (some s) = some "sobresaliente") ∧
      (141 ≤ s → SDM.categorize_score (some s) = some "excepcional")) ∧
    (∀ s1 s2 : Int, s1 < s2 →
      SDM.categoryRank ((SDM.categorize_score (some s1)).getD "") ≤
        SDM.categoryRank ((SDM.categorize_score (some s2)).getD "")) := by
  refine ⟨rfl, fun s => ?_, fun s1 s2 h => ?_⟩
  · refine ⟨fun h1 => ?_, fun h1 h2 => ?_, fun h1 h2 => ?_, fun h1 h2 => ?_, fun h1 => ?_⟩ <;>
      simp only [SDM.categorize_score] <;> split_ifs <;> first | rfl | (exfalso; omega)
  · simp only [SDM.categorize_score]
    split_ifs <;> simp only [Option.getD_some, SDM.categoryRank] <;>
      first | decide | (exfalso; omega)

/-- C4 (witness): the boundary values of the threshold table and one
monotonicity instance, obtained from `c4_categorize_thresholds_monotone`. -/
theorem c4_witness :
    SDM.categorize_score (some 75) = some "deficiente" ∧
    SDM.categorize_score (some 76) = some "regular" ∧
    SDM.categorize_score (some 100) = some "regular" ∧
    SDM.categorize_score (some 101) = some "satisfactorio" ∧
    SDM.categorize_score (some 120) = some "satisfactorio" ∧
    SDM.categorize_score (some 121) = some "sobresaliente" ∧
    SDM.categorize_score (some 140) = some "sobresaliente" ∧
    SDM.categorize_score (some 141) = some "excepcional" ∧
    SDM.categoryRank ((SDM.categorize_score (some 100)).getD "") ≤
      SDM.categoryRank ((SDM.categorize_score (some 101)).getD "") :=
  ⟨(c4_categorize_thresholds_monotone.2.1 75).1 (by decide),
   (c4_categorize_thresholds_monotone.2.1 76).2.1 (by decide) (by decide),
   (c4_categorize_thresholds_monotone.2.1 100).2.1 (by decide) (by decide),
   (c4_categorize_thresholds_monotone.2.1 101).2.2.1 (by decide) (by decide),
   (c4_categorize_thresholds_monotone.2.1 120).2.2.1 (by decide) (by decide),
   (c4_categorize_thresholds_monotone.2.1 121).2.2.2.1 (by decide) (by decide),
   (c4_categorize_thresholds_monotone.2.1 140).2.2.2.1 (by decide) (by decide),
   (c4_categorize_thresholds_monotone.2.1 141).2.2.2.2 (by decide),
   c4_categorize_thresholds_monotone.2.2 100 101 (by decide)⟩

/-- C7: resolving the bare display name of any of the 20 metrics-table
entries returns exactly that entry's code together with the name, even
though the code-substring strategy runs before the name-substring
strategy. -/
theorem c7_known_names_resolve :
    ∀ p ∈ Metrics.CAMPUS_MAPPING, Metrics.extract_campus_from_region p.2 = (p.1, p.2) := by
  decide

/-- C7 (witness): `"Sinaloa"` — a name the code-substring strategy itself
resolves (`"SIN"` occurs inside `"SINALOA"`) — maps to `("SIN", "Sinaloa")`. -/
theorem c7_witness : Metrics.extract_campus_from_region "Sinaloa" = ("SIN", "Sinaloa") :=
  c7_known_names_resolve ("SIN", "Sinaloa") (by decide)

/-- C6 (counterexample): a CSV whose second row is the single cell
`"campus"` has two rows whose trimmed, lowercased left column equals
`"campus"`, yet the parser outputs only one entry, because rows with fewer
than two columns are skipped before the left column is inspected. -/
theorem c6_counterexample :
    SDM.claimCampusRowCount [["campus", "A"], ["campus"]] = 2 ∧
    (SDM.parse_campus_scores_csv [["campus", "A"], ["campus"]]).length = 1 := by
  decide

/-- `parenToken` skips a block of characters containing no `'('`. -/
theorem parenToken_skip (p rest : List Char) (hp : '(' ∉ p) :
    Metrics.parenToken (p ++ rest) = Metrics.parenToken rest := by
  induction p with
  | nil => rfl
  | cons c cs ih =>
    have hc : ¬ c = '(' := fun h => hp (by rw [h]; exact List.mem_cons_self _ _)
    rw [List.cons_append]
    simp only [Metrics.parenToken, if_neg hc]
    exact ih (fun h => hp (List.mem_cons_of_mem _ h))

/-- `takeWhile isWordChar` on a word-character block followed by `')'`. -/
theorem takeWhile_word_append (t rest : List Char) (h : ∀ c ∈ t, isWordChar c = true) :
    (t ++ ')' :: rest).takeWhile isWordChar = t := by
  induction t with
  | nil =>
    have hpc : isWordChar ')' = false := by decide
    simp [List.takeWhile_cons, hpc]
  | cons c t ih =>
    have hc : isWordChar c = true := h c (List.mem_cons_self _ _)
    simp only [List.cons_append, List.takeWhile_cons, hc, if_true]
    rw [ih (fun d hd => h d (List.mem_cons_of_mem _ hd))]

/-- `dropWhile isWordChar` on a word-character block followed by `')'`. -/
theorem dropWhile_word_append (t rest : List Char) (h : ∀ c ∈ t, isWordChar c = true) :
    (t ++ ')' :: rest).dropWhile isWordChar = ')' :: rest := by
  induction t with
  | nil =>
    have hpc : isWordChar ')' = false := by decide
    simp [List.dropWhile_cons, hpc]
  | cons c t ih =>
    have hc : isWordChar c = true := h c (List.mem_cons_self _ _)
    simp only [List.cons_append, List.dropWhile_cons, hc, if_true]
    exact ih (fun d hd => h d (List.mem_cons_of_mem _ hd))

/-- `lookupD` falls back to the default when the key is absent. -/
theorem lookupD_of_not_mem (l : List (String × String)) (key d : String)
    (h : key ∉ l.map Prod.fst) : lookupD l key d = d := by
  induction l with
  | nil => rfl
  | cons kv rest ih =>
    have hk : ¬ kv.1 = key := by
      intro e
      exact h (by rw [← e]; exact List.mem_map_of_mem Prod.fst (List.mem_cons_self _ _))
    obtain ⟨k, v⟩ := kv
    simp only [lookupD, if_neg hk]
    exact ih (fun hm => h (List.mem_cons_of_mem _ (by simpa using hm)))

/-- `parenToken` at an opening parenthesis inspects the word-character run
that follows. -/
theorem parenToken_cons_open (cs : List Char) :
    Metrics.parenToken ('(' :: cs) =
      (match cs.takeWhile isWordChar, cs.dropWhile isWordChar with
       | tok@(_ :: _), ')' :: _ => some tok
       | _, _ => Metrics.parenToken cs) := by
  simp only [Metrics.parenToken, if_true]

/-- C10: campus resolution uses the first parenthesized token and stops:
for any region text made of a `'('`-free prefix, a parenthesized
word-character token `t1`, and an arbitrary remainder, the result is
determined by `t1` alone (uppercased and looked up in the table), and when
the uppercased token is not a known code the resolver returns the token
itself as both id and name, regardless of any later parenthesized token. -/
theorem c10_first_paren_wins (p t1 rest : List Char) (hp : '(' ∉ p) (h1 : t1 ≠ [])
    (h2 : ∀ c ∈ t1, isWordChar c = true) :
    Metrics.extract_campus_from_region (String.mk (p ++ '(' :: (t1 ++ ')' :: rest))) =
      (String.mk (t1.map Char.toUpper),
       lookupD Metrics.CAMPUS_MAPPING (String.mk (t1.map Char.toUpper))
         (String.mk (t1.map Char.toUpper))) ∧
    (String.mk (t1.map Char.toUpper) ∉ Metrics.CAMPUS_MAPPING.map Prod.fst →
      Metrics.extract_campus_from_region (String.mk (p ++ '(' :: (t1 ++ ')' :: rest))) =
        (String.mk (t1.map Char.toUpper), String.mk (t1.map Char.toUpper))) := by
  have hpt : Metrics.parenToken (p ++ '(' :: (t1 ++ ')' :: rest)) = some t1 := by
    rw [parenToken_skip p _ hp]
    cases t1 with
    | nil => exact absurd rfl h1
    | cons a t =>
      rw [parenToken_cons_open, takeWhile_word_append _ _ h2, dropWhile_word_append _ _ h2]
      rfl
  have hmain : Metrics.extract_campus_from_region (String.mk (p ++ '(' :: (t1 ++ ')' :: rest))) =
      (String.mk (t1.map Char.toUpper),
       lookupD Metrics.CAMPUS_MAPPING (String.mk (t1.map Char.toUpper))
         (String.mk (t1.map Char.toUpper))) := by
    unfold Metrics.extract_campus_from_region
    have hdata : (String.mk (p ++ '(' :: (t1 ++ ')' :: rest))).data =
        p ++ '(' :: (t1 ++ ')' :: rest) := rfl
    rw [hdata, hpt]
  refine ⟨hmain, fun hmem => ?_⟩
  rw [hmain, lookupD_of_not_mem _ _ _ hmem]

/-- C10 (witness): `"Reporte (2024) Campus Monterrey (MTY)"` resolves to
`("2024", "2024")` — the later known token `(MTY)` is never consulted. -/
theorem c10_witness :
    Metrics.extract_campus_from_region "Reporte (2024) Campus Monterrey (MTY)" =
      ("2024", "2024") := by
  have h := (c10_first_paren_wins "Reporte ".data "2024".data " Campus Monterrey (MTY)".data
    (by decide) (by decide) (by decide)).2 (by decide)
  exact h

/-- `lookupPrevRegion` finds nothing when no previous record carries the
key as its `REGION`. -/
theorem lookupPrevRegion_eq_none (prev : List Metrics.MetricRec) (key : String)
    (h : ∀ q ∈ prev, q.REGION ≠ some key) : Metrics.lookupPrevRegion prev key = none := by
  induction prev with
  | nil => rfl
  | cons q rest ih =>
    simp only [Metrics.lookupPrevRegion]
    rw [ih (fun r hr => h r (List.mem_cons_of_mem _ hr))]
    simp only [if_neg (h q (List.mem_cons_self _ _))]

/-- C9: the metrics merge is asymmetric about a missing `REGION` field —
any previous-period record without it aborts the whole run with a
`KeyError`, while a current-period record without it is processed with the
empty string as its region text and so resolves to campus `"UNK"` with the
raw text (empty) as its name. -/
theorem c9_missing_region_asymmetry (cur prev : List Metrics.MetricRec) :
    ((∃ q ∈ prev, q.REGION = none) → Metrics.process_metrics cur prev = Except.error ()) ∧
    (∀ out, Metrics.process_metrics cur prev = Except.ok out →
      ∀ i (hi : i < cur.length) (ho : i < out.length), (cur.get ⟨i, hi⟩).REGION = none →
        (out.get ⟨i, ho⟩).campus_id = "UNK" ∧ (out.get ⟨i, ho⟩).campus_name = "") := by
  constructor
  · rintro ⟨q, hq, hqnone⟩
    unfold Metrics.process_metrics
    rw [if_neg]
    intro hall
    rw [List.all_eq_true] at hall
    have hbad := hall q hq
    rw [hqnone] at hbad
    simp at hbad
  · intro out hout i hi ho hreg
    unfold Metrics.process_metrics at hout
    split at hout
    · have hmap : out = cur.map (Metrics.combineOne prev) := by
        injection hout with h1
        exact h1.symm
      subst hmap
      rw [List.get_eq_getElem, List.getElem_map]
      have hget : cur[i] = cur.get ⟨i, hi⟩ := by rw [List.get_eq_getElem]
      rw [hget, Metrics.combineOne, hreg]
      exact ⟨rfl, rfl⟩
    · cases hout

/-- C9 (witness): one previous record without `REGION` aborts the run; a
current record without `REGION` resolves to `("UNK", "")`. -/
theorem c9_witness :
    Metrics.process_metrics [] [mNoRegion] = Except.error () ∧
    Metrics.process_metrics [mNoRegion] [] = Except.ok outNoRegion ∧
    (outNoRegion.get ⟨0, by decide⟩).campus_id = "UNK" ∧
    (outNoRegion.get ⟨0, by decide⟩).campus_name = "" := by
  have h1 := (c9_missing_region_asymmetry [] [mNoRegion]).1
    ⟨mNoRegion, List.mem_cons_self _ _, rfl⟩
  have hok : Metrics.process_metrics [mNoRegion] [] = Except.ok outNoRegion := rfl
  have h2 := (c9_missing_region_asymmetry [mNoRegion] []).2 outNoRegion hok 0
    (by decide) (by decide) rfl
  exact ⟨h1, hok, h2.1, h2.2⟩

/-- C5: the metrics merge emits exactly one combined entry per current
record, in current input order (entry `i` carries the resolved identity and
defaulted counters of current record `i`, so records with distinct raw
region texts are never merged), and any current record with no
previous-period record of exactly equal raw region text gets an all-zero
`previous_year_month`. -/
theorem c5_merge_order_and_zero_fill (cur prev : List Metrics.MetricRec)
    (out : List Metrics.RegionCombined)
    (h : Metrics.process_metrics cur prev = Except.ok out) :
    out.length = cur.length ∧
    ∀ i (hi : i < cur.length) (ho : i < out.length),
      (out.get ⟨i, ho⟩).campus_id =
        (Metrics.extract_campus_from_region ((cur.get ⟨i, hi⟩).REGION.getD "")).1 ∧
      (out.get ⟨i, ho⟩).campus_name =
        (Metrics.extract_campus_from_region ((cur.get ⟨i, hi⟩).REGION.getD "")).2 ∧
      (out.get ⟨i, ho⟩).current_month = Metrics.metricsOf (cur.get ⟨i, hi⟩) ∧
      ((∀ q ∈ prev, q.REGION ≠ some ((cur.get ⟨i, hi⟩).REGION.getD "")) →
        (out.get ⟨i, ho⟩).previous_year_month = Metrics.zeroMetrics) := by
  unfold Metrics.process_metrics at h
  split at h
  · injection h with h'
    subst h'
    refine ⟨List.length_map _ _, fun i hi ho => ?_⟩
    rw [List.get_eq_getElem, List.get_eq_getElem, List.getElem_map]
    refine ⟨by simp [Metrics.combineOne], by simp [Metrics.combineOne],
      by simp [Metrics.combineOne, Metrics.metricsOf], fun hz => ?_⟩
    have hz' : ∀ q ∈ prev, q.REGION ≠ some (cur[i].REGION.getD "") := by
      simpa [List.get_eq_getElem] using hz
    simp [Metrics.combineOne, lookupPrevRegion_eq_none prev _ hz']
  · cases h

/-- C5 (witness): two current records with distinct raw region texts both
resolving to campus MTY, merged against an empty previous period: two
entries in input order, both with zero-filled previous metrics. -/
theorem c5_witness :
    Metrics.process_metrics [cRecA, cRecB] [] = Except.ok outW ∧
    outW.length = 2 ∧
    (outW.get ⟨0, by decide⟩).campus_id = "MTY" ∧
    (outW.get ⟨1, by decide⟩).campus_id = "MTY" ∧
    (outW.get ⟨0, by decide⟩).previous_year_month = Metrics.zeroMetrics ∧
    (outW.get ⟨1, by decide⟩).previous_year_month = Metrics.zeroMetrics := by
  have hok : Metrics.process_metrics [cRecA, cRecB] [] = Except.ok outW := rfl
  have h := c5_merge_order_and_zero_fill [cRecA, cRecB] [] outW hok
  have hnil : ∀ i (hi : i < ([cRecA, cRecB] : List Metrics.MetricRec).length),
      ∀ q ∈ ([] : List Metrics.MetricRec),
        q.REGION ≠ some ((([cRecA, cRecB] : List Metrics.MetricRec).get ⟨i, hi⟩).REGION.getD "") :=
    fun _ _ q hq => absurd hq (List.not_mem_nil q)
  have h0 := h.2 0 (by decide) (by decide)
  have h1 := h.2 1 (by decide) (by decide)
  exact ⟨hok, h.1, h0.1.trans (by decide), h1.1.trans (by decide),
    h0.2.2.2 (hnil 0 (by decide)), h1.2.2.2 (hnil 1 (by decide))⟩

/-- `setPlatform` never changes the campus name of the accumulator. -/
theorem setPlatform_campus_name (cc : SDM.CampusPerf) (pl : String)
    (f : SDM.PlatformScores → SDM.PlatformScores) :
    (SDM.setPlatform cc pl f).campus_name = cc.campus_name := by
  unfold SDM.setPlatform
  split_ifs <;> rfl

/-- `campusHeaderNames` distributes over a `cons` of rows. -/
theorem campusHeaderNames_cons (row : List String) (rows : List (List String)) :
    SDM.campusHeaderNames (row :: rows) =
      SDM.campusHeaderNames [row] ++ SDM.campusHeaderNames rows := by
  unfold SDM.campusHeaderNames
  rw [List.filterMap_cons, List.filterMap_cons]
  rcases row with _ | ⟨a, _ | ⟨b, t⟩⟩
  · simp
  · simp
  · simp only [List.nil_append]
    split <;> simp

/-- One CSV row preserves the flush invariant: completed names plus pending
name grow exactly by the campus-header name of the row, if any. -/
theorem sdm_step_names (st : SDM.ParserSt) (row : List String) :
    ((SDM.stepRow st row).campuses.map (fun c => c.campus_name)) ++
      SDM.currentNames (SDM.stepRow st row) =
      ((st.campuses.map (fun c => c.campus_name)) ++ SDM.currentNames st) ++
        SDM.campusHeaderNames [row] := by
  rcases row with _ | ⟨a, _ | ⟨b, t⟩⟩
  · simp [SDM.stepRow, SDM.campusHeaderNames]
  · simp [SDM.stepRow, SDM.campusHeaderNames]
  · by_cases hc : lowerStr (stripStr a) = "campus"
    · rcases hcur : st.current with _ | cc <;>
        simp [SDM.stepRow, hc, SDM.currentNames, hcur, SDM.campusHeaderNames]
    · by_cases hp : lowerStr (stripStr a) = "facebook" ∨ lowerStr (stripStr a) = "twitter" ∨
          lowerStr (stripStr a) = "instagram" ∨ lowerStr (stripStr a) = "totales"
      · simp [SDM.stepRow, hc, hp, SDM.currentNames, SDM.campusHeaderNames]
      · by_cases hs : lowerStr (stripStr a) = "visibilidad" ∨ lowerStr (stripStr a) = "resonancia" ∨
            lowerStr (stripStr a) = "permanencia" ∨ lowerStr (stripStr a) = "sentimiento" ∨
            lowerStr (stripStr a) = "salud de marca"
        · rcases hplat : st.currentPlatform with _ | pl <;>
            rcases hcur : st.current with _ | cc <;>
              simp [SDM.stepRow, hc, hp, hs, SDM.currentNames, hplat, hcur,
                SDM.campusHeaderNames, setPlatform_campus_name]
        · simp [SDM.stepRow, hc, hp, hs, SDM.currentNames, SDM.campusHeaderNames]

/-- The whole row scan preserves the flush invariant. -/
theorem sdm_fold_names (rows : List (List String)) : ∀ st : SDM.ParserSt,
    ((rows.foldl SDM.stepRow st).campuses.map (fun c => c.campus_name)) ++
      SDM.currentNames (rows.foldl SDM.stepRow st) =
      ((st.campuses.map (fun c => c.campus_name)) ++ SDM.currentNames st) ++
        SDM.campusHeaderNames rows := by
  induction rows with
  | nil => intro st; simp [SDM.campusHeaderNames]
  | cons row rows ih =>
    intro st
    rw [List.foldl_cons, ih (SDM.stepRow st row), sdm_step_names st row,
      campusHeaderNames_cons row rows, List.append_assoc]

/-- C6 (amended): for every CSV input, the parser emits exactly one entry
per row with at least two columns whose trimmed, lowercased left column is
`"campus"`, in file order, the final accumulator being flushed at
end-of-input; single-column `campus` rows are skipped by the
minimum-column guard. -/
theorem c6_flush_correctness (rows : List (List String)) :
    (SDM.parse_campus_scores_csv rows).map (fun c => c.campus_name) =
      SDM.campusHeaderNames rows ∧
    (SDM.parse_campus_scores_csv rows).length = (SDM.campusHeaderNames rows).length := by
  have h := sdm_fold_names rows { campuses := [], current := none, currentPlatform := none }
  simp only [List.map_nil, SDM.currentNames, List.nil_append] at h
  have hmain : (SDM.parse_campus_scores_csv rows).map (fun c => c.campus_name) =
      SDM.campusHeaderNames rows := by
    unfold SDM.parse_campus_scores_csv
    rcases hcur : (rows.foldl SDM.stepRow
        { campuses := [], current := none, currentPlatform := none }).current with _ | cc <;>
      simp only [SDM.currentNames, hcur] at h <;> simp only [hcur] <;> simpa using h
  refine ⟨hmain, ?_⟩
  have := congrArg List.length hmain
  simpa using this

/-- Filtering a `take` yields an initial segment of filtering the whole
list. -/
theorem filter_take_pre {α : Type} (p : α → Bool) (n : Nat) (l : List α) :
    (l.take n).filter p <+: l.filter p :=
  ⟨(l.drop n).filter p, by rw [← List.filter_append, List.take_append_drop]⟩

/-- `ordIns` adds exactly one element. -/
theorem length_ordIns (p : Pubs.Publication) (l : List Pubs.Publication) :
    (Pubs.ordIns p l).length = l.length + 1 := by
  induction l with
  | nil => rfl
  | cons q l ih =>
    unfold Pubs.ordIns
    split_ifs
    · rfl
    · simp [List.length_cons, ih]

/-- `sortDesc` preserves length. -/
theorem length_sortDesc (l : List Pubs.Publication) : (Pubs.sortDesc l).length = l.length := by
  induction l with
  | nil => rfl
  | cons p l ih =>
    show (Pubs.ordIns p (Pubs.sortDesc l)).length = _
    rw [length_ordIns, ih, List.length_cons]

/-- Membership in `ordIns`. -/
theorem mem_ordIns (p q : Pubs.Publication) (l : List Pubs.Publication) :
    q ∈ Pubs.ordIns p l ↔ q = p ∨ q ∈ l := by
  induction l with
  | nil => simp [Pubs.ordIns]
  | cons r l ih =>
    unfold Pubs.ordIns
    split_ifs
    · simp [List.mem_cons]
    · simp only [List.mem_cons, ih]
      tauto

/-- Membership in `sortDesc`. -/
theorem mem_sortDesc (q : Pubs.Publication) (l : List Pubs.Publication) :
    q ∈ Pubs.sortDesc l ↔ q ∈ l := by
  induction l with
  | nil => simp [Pubs.sortDesc]
  | cons p l ih =>
    show q ∈ Pubs.ordIns p (Pubs.sortDesc l) ↔ _
    rw [mem_ordIns, ih, List.mem_cons]

/-- `ordIns` preserves descending sortedness. -/
theorem pairwise_ordIns (p : Pubs.Publication) (l : List Pubs.Publication)
    (h : List.Pairwise (fun a b => b.engagement_score ≤ a.engagement_score) l) :
    List.Pairwise (fun a b => b.engagement_score ≤ a.engagement_score) (Pubs.ordIns p l) := by
  induction l with
  | nil => simp [Pubs.ordIns]
  | cons q l ih =>
    rw [List.pairwise_cons] at h
    obtain ⟨hq, hl⟩ := h
    unfold Pubs.ordIns
    split_ifs with hc
    · refine List.Pairwise.cons ?_ (List.Pairwise.cons hq hl)
      intro r hr
      rcases List.mem_cons.mp hr with rfl | hr
      · exact hc
      · exact le_trans (hq r hr) hc
    · refine List.Pairwise.cons ?_ (ih hl)
      intro r hr
      rcases (mem_ordIns p r l).mp hr with rfl | hr
      · exact le_of_not_le hc
      · exact hq r hr

/-- `sortDesc` sorts by non-increasing engagement score. -/
theorem pairwise_sortDesc (l : List Pubs.Publication) :
    List.Pairwise (fun a b => b.engagement_score ≤ a.engagement_score) (Pubs.sortDesc l) := by
  induction l with
  | nil => simp [Pubs.sortDesc]
  | cons p l ih => exact pairwise_ordIns p _ ih

/-- Inserting into a list only touches the score class of the inserted
element: the fixed-score slices are preserved, with the new element in
front of its own class. -/
theorem filter_score_ordIns (s : Int) (p : Pubs.Publication) (l : List Pubs.Publication) :
    (Pubs.ordIns p l).filter (fun q => q.engagement_score = s) =
      (if p.engagement_score = s then
        p :: l.filter (fun q => q.engagement_score = s)
       else l.filter (fun q => q.engagement_score = s)) := by
  induction l with
  | nil =>
    unfold Pubs.ordIns
    by_cases hp : p.engagement_score = s <;> simp [hp, List.filter_cons]
  | cons q l ih =>
    unfold Pubs.ordIns
    by_cases hc : q.engagement_score ≤ p.engagement_score
    · rw [if_pos hc]
      by_cases hp : p.engagement_score = s <;> simp [List.filter_cons, hp]
    · rw [if_neg hc]
      by_cases hp : p.engagement_score = s
      · have hqne : ¬ q.engagement_score = s := fun h => hc (le_of_eq (h.trans hp.symm))
        simp [List.filter_cons, hp, hqne, ih]
      · by_cases hq : q.engagement_score = s <;> simp [List.filter_cons, hp, hq, ih]

/-- Stability of the descending sort: each fixed-score slice of the sorted
list equals the corresponding slice of the input, in input order. -/
theorem filter_score_sortDesc (s : Int) (l : List Pubs.Publication) :
    (Pubs.sortDesc l).filter (fun q => q.engagement_score = s) =
      l.filter (fun q => q.engagement_score = s) := by
  induction l with
  | nil => rfl
  | cons p l ih =>
    show (Pubs.ordIns p (Pubs.sortDesc l)).filter _ = _
    rw [filter_score_ordIns, ih]
    by_cases hp : p.engagement_score = s <;> simp [List.filter_cons, hp]

/-- Membership in `insNew`. -/
theorem mem_insNew (l : List String) (x y : String) :
    y ∈ Pubs.insNew l x ↔ y ∈ l ∨ y = x := by
  unfold Pubs.insNew
  split_ifs with h
  · constructor
    · exact Or.inl
    · rintro (hy | rfl)
      · exact hy
      · exact h
  · simp [List.mem_append]

/-- `insNew` preserves distinctness. -/
theorem nodup_insNew (l : List String) (x : String) (h : l.Nodup) :
    (Pubs.insNew l x).Nodup := by
  unfold Pubs.insNew
  split_ifs with hx
  · exact h
  · exact h.append (List.nodup_singleton x)
      (fun a ha hax => hx ((List.mem_singleton.mp hax) ▸ ha))

/-- Membership in the fold underlying `seenList`. -/
theorem mem_seenList_aux (xs : List String) :
    ∀ acc y, y ∈ xs.foldl Pubs.insNew acc ↔ y ∈ acc ∨ y ∈ xs := by
  induction xs with
  | nil => intro acc y; simp
  | cons x xs ih =>
    intro acc y
    rw [List.foldl_cons, ih, mem_insNew, List.mem_cons]
    tauto

/-- `seenList` holds exactly the elements of its input. -/
theorem mem_seenList (xs : List String) (y : String) :
    y ∈ Pubs.seenList xs ↔ y ∈ xs := by
  unfold Pubs.seenList
  rw [mem_seenList_aux]
  simp

/-- The fold underlying `seenList` preserves distinctness. -/
theorem nodup_seenList_aux (xs : List String) :
    ∀ acc, acc.Nodup → (xs.foldl Pubs.insNew acc).Nodup := by
  induction xs with
  | nil => intro acc h; exact h
  | cons x xs ih => intro acc h; exact ih _ (nodup_insNew acc x h)

/-- `seenList` has no duplicates. -/
theorem nodup_seenList (xs : List String) : (Pubs.seenList xs).Nodup :=
  nodup_seenList_aux xs [] List.nodup_nil

/-- `seenList` over a snoc. -/
theorem seenList_snoc (xs : List String) (y : String) :
    Pubs.seenList (xs ++ [y]) = Pubs.insNew (Pubs.seenList xs) y := by
  unfold Pubs.seenList
  rw [List.foldl_append]
  rfl

/-- `groupPubs` over a snoc: the last record is inserted into the state
built from the prefix. -/
theorem groupPubs_snoc (input : List Pubs.RawPub) (r : Pubs.RawPub) :
    Pubs.groupPubs (input ++ [r]) =
      (match Pubs.processRec r with
       | none => Pubs.groupPubs input
       | some (c, pl, fp) => Pubs.insertOuter c pl fp (Pubs.groupPubs input)) := by
  unfold Pubs.groupPubs
  rw [List.foldl_append]
  rfl

/-- A dropped record changes none of the survivor lists. -/
theorem survivors_snoc_none (input : List Pubs.RawPub) (r : Pubs.RawPub)
    (h : Pubs.processRec r = none) (c pl : String) :
    Pubs.survivors (input ++ [r]) c pl = Pubs.survivors input c pl := by
  unfold Pubs.survivors
  rw [List.filterMap_append]
  simp [h]

/-- A dropped record changes no campus occurrence list. -/
theorem survivorCampuses_snoc_none (input : List Pubs.RawPub) (r : Pubs.RawPub)
    (h : Pubs.processRec r = none) :
    Pubs.survivorCampuses (input ++ [r]) = Pubs.survivorCampuses input := by
  unfold Pubs.survivorCampuses
  rw [List.filterMap_append]
  simp [h]

/-- A dropped record changes no platform occurrence list. -/
theorem survivorPlatformsOf_snoc_none (input : List Pubs.RawPub) (r : Pubs.RawPub)
    (h : Pubs.processRec r = none) (c : String) :
    Pubs.survivorPlatformsOf (input ++ [r]) c = Pubs.survivorPlatformsOf input c := by
  unfold Pubs.survivorPlatformsOf
  rw [List.filterMap_append]
  simp [h]

/-- A surviving record appends its publication to exactly its own
campus/platform survivor list. -/
theorem survivors_snoc_some (input : List Pubs.RawPub) (r : Pubs.RawPub)
    (c0 pl0 : String) (fp : Pubs.Publication)
    (h : Pubs.processRec r = some (c0, pl0, fp)) (c pl : String) :
    Pubs.survivors (input ++ [r]) c pl =
      Pubs.survivors input c pl ++ (if c = c0 ∧ pl = pl0 then [fp] else []) := by
  unfold Pubs.survivors
  rw [List.filterMap_append]
  congr 1
  by_cases h1 : c = c0 ∧ pl = pl0
  · obtain ⟨rfl, rfl⟩ := h1
    simp [List.filterMap_cons, h]
  · have h2 : ¬ (c0 = c ∧ pl0 = pl) := fun hand => h1 ⟨hand.1.symm, hand.2.symm⟩
    simp [List.filterMap_cons, h, h1, h2]

/-- A surviving record appends its campus code to the campus occurrence
list. -/
theorem survivorCampuses_snoc_some (input : List Pubs.RawPub) (r : Pubs.RawPub)
    (c0 pl0 : String) (fp : Pubs.Publication)
    (h : Pubs.processRec r = some (c0, pl0, fp)) :
    Pubs.survivorCampuses (input ++ [r]) = Pubs.survivorCampuses input ++ [c0] := by
  unfold Pubs.survivorCampuses
  rw [List.filterMap_append]
  simp [List.filterMap_cons, h]

/-- A surviving record appends its platform to exactly its own campus's
platform occurrence list. -/
theorem survivorPlatformsOf_snoc_some (input : List Pubs.RawPub) (r : Pubs.RawPub)
    (c0 pl0 : String) (fp : Pubs.Publication)
    (h : Pubs.processRec r = some (c0, pl0, fp)) (c : String) :
    Pubs.survivorPlatformsOf (input ++ [r]) c =
      Pubs.survivorPlatformsOf input c ++ (if c = c0 then [pl0] else []) := by
  unfold Pubs.survivorPlatformsOf
  rw [List.filterMap_append]
  congr 1
  by_cases h1 : c = c0
  · subst h1
    simp [List.filterMap_cons, h]
  · have h2 : ¬ (c0 = c) := fun e => h1 e.symm
    simp [List.filterMap_cons, h, h1, h2]

/-- A campus never seen among the survivors has an empty platform
occurrence list. -/
theorem platsOf_nil_of_not_campus (input : List Pubs.RawPub) (c : String)
    (h : c ∉ Pubs.survivorCampuses input) : Pubs.survivorPlatformsOf input c = [] := by
  induction input with
  | nil => rfl
  | cons r input ih =>
    rcases hr : Pubs.processRec r with _ | ⟨c0, pl0, fp⟩
    · have h' : c ∉ Pubs.survivorCampuses input := by
        intro hm
        exact h (by unfold Pubs.survivorCampuses at hm ⊢; simpa [List.filterMap_cons, hr] using hm)
      unfold Pubs.survivorPlatformsOf at ih ⊢
      simpa [List.filterMap_cons, hr] using ih h'
    · have hc : ¬ (c0 = c) := by
        intro e
        exact h (by unfold Pubs.survivorCampuses; simp [List.filterMap_cons, hr, e])
      have h' : c ∉ Pubs.survivorCampuses input := by
        intro hm
        exact h (by unfold Pubs.survivorCampuses at hm ⊢; simp [List.filterMap_cons, hr]
                    exact Or.inr (by simpa using hm))
      unfold Pubs.survivorPlatformsOf at ih ⊢
      simpa [List.filterMap_cons, hr, hc] using ih h'

/-- A platform never seen for a campus has an empty survivor list. -/
theorem survivors_nil_of_not_plat (input : List Pubs.RawPub) (c pl : String)
    (h : pl ∉ Pubs.survivorPlatformsOf input c) : Pubs.survivors input c pl = [] := by
  induction input with
  | nil => rfl
  | cons r input ih =>
    rcases hr : Pubs.processRec r with _ | ⟨c0, pl0, fp⟩
    · have h' : pl ∉ Pubs.survivorPlatformsOf input c := by
        intro hm
        exact h (by unfold Pubs.survivorPlatformsOf at hm ⊢; simpa [List.filterMap_cons, hr] using hm)
      unfold Pubs.survivors at ih ⊢
      simpa [List.filterMap_cons, hr] using ih h'
    · have hcond : ¬ (c0 = c ∧ pl0 = pl) := by
        rintro ⟨rfl, rfl⟩
        exact h (by unfold Pubs.survivorPlatformsOf; simp [List.filterMap_cons, hr])
      have h' : pl ∉ Pubs.survivorPlatformsOf input c := by
        intro hm
        refine h ?_
        unfold Pubs.survivorPlatformsOf at hm ⊢
        by_cases hc : c0 = c
        · simp [List.filterMap_cons, hr, hc]
          exact Or.inr (by simpa using hm)
        · simpa [List.filterMap_cons, hr, hc] using hm
      unfold Pubs.survivors at ih ⊢
      simpa [List.filterMap_cons, hr, hcond] using ih h'

/-- A seen campus has at least one seen platform. -/
theorem platsOf_ne_nil_of_mem (input : List Pubs.RawPub) (c : String)
    (h : c ∈ Pubs.survivorCampuses input) : Pubs.survivorPlatformsOf input c ≠ [] := by
  intro hnil
  induction input with
  | nil => exact absurd h (List.not_mem_nil c)
  | cons r input ih =>
    rcases hr : Pubs.processRec r with _ | ⟨c0, pl0, fp⟩
    · refine ih ?_ ?_
      · unfold Pubs.survivorCampuses at h ⊢; simpa [List.filterMap_cons, hr] using h
      · unfold Pubs.survivorPlatformsOf at hnil ⊢; simpa [List.filterMap_cons, hr] using hnil
    · by_cases hc : c0 = c
      · unfold Pubs.survivorPlatformsOf at hnil
        simp [List.filterMap_cons, hr, hc] at hnil
      · refine ih ?_ ?_
        · unfold Pubs.survivorCampuses at h ⊢
          simp [List.filterMap_cons, hr] at h
          rcases h with e | hm
          · exact absurd e.symm hc
          · simpa using hm
        · unfold Pubs.survivorPlatformsOf at hnil ⊢
          simpa [List.filterMap_cons, hr, hc] using hnil

/-- A seen platform of a campus has a nonempty survivor list. -/
theorem survivors_ne_nil_of_mem (input : List Pubs.RawPub) (c pl : String)
    (h : pl ∈ Pubs.survivorPlatformsOf input c) : Pubs.survivors input c pl ≠ [] := by
  induction input with
  | nil => exact absurd h (List.not_mem_nil pl)
  | cons r input ih =>
    rcases hr : Pubs.processRec r with _ | ⟨c0, pl0, fp⟩
    · have h' : pl ∈ Pubs.survivorPlatformsOf input c := by
        unfold Pubs.survivorPlatformsOf at h ⊢
        simpa [List.filterMap_cons, hr] using h
      intro hnil
      refine ih h' ?_
      unfold Pubs.survivors at hnil ⊢
      simpa [List.filterMap_cons, hr] using hnil
    · by_cases hcond : c0 = c ∧ pl0 = pl
      · intro hnil
        unfold Pubs.survivors at hnil
        simp [List.filterMap_cons, hr, hcond.1, hcond.2] at hnil
      · have h' : pl ∈ Pubs.survivorPlatformsOf input c := by
          unfold Pubs.survivorPlatformsOf at h ⊢
          by_cases hc : c0 = c
          · simp [List.filterMap_cons, hr, hc] at h
            rcases h with rfl | hm
            · exact absurd ⟨hc, rfl⟩ hcond
            · exact List.mem_filterMap.mpr hm
          · simpa [List.filterMap_cons, hr, hc] using h
        intro hnil
        refine ih h' ?_
        unfold Pubs.survivors at hnil ⊢
        simpa [List.filterMap_cons, hr, hcond] using hnil

/-- `insertInner` updates the key list by `insNew`. -/
theorem insertInner_keys (pl0 : String) (pub : Pubs.Publication) (inner : Pubs.Inner) :
    (Pubs.insertInner pl0 pub inner).map Prod.fst =
      Pubs.insNew (inner.map Prod.fst) pl0 := by
  induction inner with
  | nil => simp [Pubs.insertInner, Pubs.insNew]
  | cons e inner ih =>
    obtain ⟨k, ps⟩ := e
    unfold Pubs.insertInner
    split_ifs with hk
    · subst hk
      simp [Pubs.insNew, List.mem_cons]
    · simp only [List.map_cons, ih]
      unfold Pubs.insNew
      by_cases hm : pl0 ∈ inner.map Prod.fst
      · simp [hm, List.mem_cons]
      · have hne : ¬ pl0 = k := fun e => hk e.symm
        simp [hm, List.mem_cons, hne]

/-- `insertOuter` updates the key list by `insNew`. -/
theorem insertOuter_keys (c0 pl0 : String) (pub : Pubs.Publication) (st : Pubs.Outer) :
    (Pubs.insertOuter c0 pl0 pub st).map Prod.fst =
      Pubs.insNew (st.map Prod.fst) c0 := by
  induction st with
  | nil => simp [Pubs.insertOuter, Pubs.insNew]
  | cons e st ih =>
    obtain ⟨k, kin⟩ := e
    unfold Pubs.insertOuter
    split_ifs with hk
    · subst hk
      simp [Pubs.insNew, List.mem_cons]
    · simp only [List.map_cons, ih]
      unfold Pubs.insNew
      by_cases hm : c0 ∈ st.map Prod.fst
      · simp [hm, List.mem_cons]
      · have hne : ¬ c0 = k := fun e => hk e.symm
        simp [hm, List.mem_cons, hne]

/-- Content of an inner dict after an `insertInner`: every entry list is
the old abstract content, with `pub` appended at key `pl0`. -/
theorem insertInner_content {surv : String → List Pubs.Publication}
    (pl0 : String) (pub : Pubs.Publication) (inner : Pubs.Inner)
    (hnd : (inner.map Prod.fst).Nodup)
    (hin : ∀ pl ps, (pl, ps) ∈ inner → ps = surv pl)
    (h1 : pl0 ∉ inner.map Prod.fst → surv pl0 = []) :
    ∀ pl ps, (pl, ps) ∈ Pubs.insertInner pl0 pub inner →
      ps = (if pl = pl0 then surv pl ++ [pub] else surv pl) := by
  induction inner with
  | nil =>
    intro pl ps hmem
    simp only [Pubs.insertInner, List.mem_singleton] at hmem
    injection hmem with e1 e2
    rw [e2, if_pos e1, e1, h1 (by simp)]
    rfl
  | cons e inner ih =>
    obtain ⟨k, kps⟩ := e
    intro pl ps hmem
    rw [List.map_cons, List.nodup_cons] at hnd
    obtain ⟨hknotin, hndtail⟩ := hnd
    unfold Pubs.insertInner at hmem
    split_ifs at hmem with hk
    · rcases List.mem_cons.mp hmem with heq | htail
      · injection heq with e1 e2
        have hplpl0 : pl = pl0 := e1.trans hk
        have hkk : kps = surv k := hin k kps (List.mem_cons_self _ _)
        rw [e2, if_pos hplpl0, e1, hkk]
      · have hplmem : pl ∈ inner.map Prod.fst := List.mem_map_of_mem Prod.fst htail
        have hplne : pl ≠ k := fun e => hknotin (by rw [← e]; exact hplmem)
        have hne2 : pl ≠ pl0 := fun e => hplne (e.trans hk.symm)
        rw [if_neg hne2]
        exact hin pl ps (List.mem_cons_of_mem _ htail)
    · rcases List.mem_cons.mp hmem with heq | htail
      · injection heq with e1 e2
        have hne : pl ≠ pl0 := fun e => hk (e1.symm.trans e)
        rw [e2, if_neg hne, e1]
        exact hin k kps (List.mem_cons_self _ _)
      · refine ih hndtail (fun pl' ps' hm => hin pl' ps' (List.mem_cons_of_mem _ hm)) ?_ pl ps htail
        intro hnm
        refine h1 ?_
        intro hmm
        rcases List.mem_cons.mp hmm with e | h2
        · exact hk e.symm
        · exact hnm h2

/-- Content of the outer dict after an `insertOuter`: keys update by
`insNew` at campus `c0`, and entry lists get `pub` appended exactly at
`(c0, pl0)`. -/
theorem insertOuter_content {plats : String → List String}
    {surv : String → String → List Pubs.Publication}
    (c0 pl0 : String) (pub : Pubs.Publication) (st : Pubs.Outer)
    (hnd : (st.map Prod.fst).Nodup)
    (hplnd : ∀ c, (plats c).Nodup)
    (hin : ∀ c inner, (c, inner) ∈ st →
      inner.map Prod.fst = plats c ∧ ∀ pl ps, (pl, ps) ∈ inner → ps = surv c pl)
    (h0 : c0 ∉ st.map Prod.fst → plats c0 = [])
    (h1 : pl0 ∉ plats c0 → surv c0 pl0 = []) :
    ∀ c inner, (c, inner) ∈ Pubs.insertOuter c0 pl0 pub st →
      inner.map Prod.fst = (if c = c0 then Pubs.insNew (plats c) pl0 else plats c) ∧
      ∀ pl ps, (pl, ps) ∈ inner →
        ps = (if c = c0 ∧ pl = pl0 then surv c pl ++ [pub] else surv c pl) := by
  induction st with
  | nil =>
    intro c inner hmem
    simp only [Pubs.insertOuter, List.mem_singleton] at hmem
    injection hmem with e1 e2
    have hplc : plats c0 = [] := h0 (by simp)
    constructor
    · rw [e2, if_pos e1, e1, hplc]
      simp [Pubs.insNew]
    · intro pl ps hm
      rw [e2] at hm
      simp only [List.mem_singleton] at hm
      injection hm with f1 f2
      rw [f2, if_pos ⟨e1, f1⟩, e1, f1, h1 (by rw [hplc]; simp)]
      rfl
  | cons e st ih =>
    obtain ⟨k, kin⟩ := e
    intro c inner hmem
    rw [List.map_cons, List.nodup_cons] at hnd
    obtain ⟨hknotin, hndtail⟩ := hnd
    have hhead := hin k kin (List.mem_cons_self _ _)
    unfold Pubs.insertOuter at hmem
    split_ifs at hmem with hk
    · rcases List.mem_cons.mp hmem with heq | htail
      · injection heq with e1 e2
        have hcc0 : c = c0 := e1.trans hk
        constructor
        · rw [e2, insertInner_keys, hhead.1, if_pos hcc0, e1]
        · intro pl ps hm
          rw [e2] at hm
          have hkeysnd : (kin.map Prod.fst).Nodup := by rw [hhead.1]; exact hplnd _
          have hk1 : pl0 ∉ kin.map Prod.fst → surv k pl0 = [] := by
            intro hnm
            rw [hk]
            refine h1 ?_
            rw [← hk, ← hhead.1]
            exact hnm
          have hres := insertInner_content pl0 pub kin hkeysnd hhead.2 hk1 pl ps hm
          rw [hres, e1]
          by_cases hp : pl = pl0
          · rw [if_pos hp, if_pos ⟨hk, hp⟩]
          · rw [if_neg hp, if_neg (fun hand => hp hand.2)]
      · have hcmem : c ∈ st.map Prod.fst := List.mem_map_of_mem Prod.fst htail
        have hcne : c ≠ k := fun e => hknotin (by rw [← e]; exact hcmem)
        have hcc0 : c ≠ c0 := fun e => hcne (e.trans hk.symm)
        have hfacts := hin c inner (List.mem_cons_of_mem _ htail)
        refine ⟨?_, ?_⟩
        · rw [if_neg hcc0]
          exact hfacts.1
        · intro pl ps hm
          rw [if_neg (fun hand => hcc0 hand.1)]
          exact hfacts.2 pl ps hm
    · rcases List.mem_cons.mp hmem with heq | htail
      · injection heq with e1 e2
        have hcc0 : c ≠ c0 := fun e => hk (e1.symm.trans e)
        refine ⟨?_, ?_⟩
        · rw [e2, if_neg hcc0, e1]
          exact hhead.1
        · intro pl ps hm
          rw [e2] at hm
          rw [if_neg (fun hand => hcc0 hand.1), e1]
          exact hhead.2 pl ps hm
      · refine ih hndtail (fun c' inner' hm => hin c' inner' (List.mem_cons_of_mem _ hm)) ?_
          c inner htail
        intro hnm
        refine h0 ?_
        intro hmm
        rcases List.mem_cons.mp hmm with e | h2
        · exact hk e.symm
        · exact hnm h2

/-- The invariant of the grouping loop: outer keys are the campuses in
first-seen order, inner keys are each campus's platforms in first-seen
order, and each inner entry holds exactly that campus/platform's surviving
publications in input order. -/
theorem groupPubs_good (input : List Pubs.RawPub) :
    (Pubs.groupPubs input).map Prod.fst = Pubs.seenCampuses input ∧
    ∀ c inner, (c, inner) ∈ Pubs.groupPubs input →
      inner.map Prod.fst = Pubs.seenPlatforms input c ∧
      ∀ pl ps, (pl, ps) ∈ inner → ps = Pubs.survivors input c pl := by
  induction input using List.reverseRecOn with
  | nil =>
    constructor
    · rfl
    · intro c inner hmem
      exact absurd hmem (List.not_mem_nil _)
  | append_singleton input r ih =>
    rcases hr : Pubs.processRec r with _ | ⟨c0, pl0, fp⟩
    · have hg : Pubs.groupPubs (input ++ [r]) = Pubs.groupPubs input := by
        rw [groupPubs_snoc, hr]
      have hsc : Pubs.seenCampuses (input ++ [r]) = Pubs.seenCampuses input := by
        unfold Pubs.seenCampuses
        rw [survivorCampuses_snoc_none input r hr]
      have hsp : ∀ c, Pubs.seenPlatforms (input ++ [r]) c = Pubs.seenPlatforms input c := by
        intro c
        unfold Pubs.seenPlatforms
        rw [survivorPlatformsOf_snoc_none input r hr]
      constructor
      · rw [hg, hsc]
        exact ih.1
      · intro c inner hmem
        rw [hg] at hmem
        obtain ⟨hkeys, hcontent⟩ := ih.2 c inner hmem
        refine ⟨by rw [hsp c]; exact hkeys, ?_⟩
        intro pl ps hm
        rw [survivors_snoc_none input r hr]
        exact hcontent pl ps hm
    · have hg : Pubs.groupPubs (input ++ [r]) =
          Pubs.insertOuter c0 pl0 fp (Pubs.groupPubs input) := by
        rw [groupPubs_snoc, hr]
      have hsc : Pubs.seenCampuses (input ++ [r]) =
          Pubs.insNew (Pubs.seenCampuses input) c0 := by
        unfold Pubs.seenCampuses
        rw [survivorCampuses_snoc_some input r c0 pl0 fp hr, seenList_snoc]
      have hsp : ∀ c, Pubs.seenPlatforms (input ++ [r]) c =
          (if c = c0 then Pubs.insNew (Pubs.seenPlatforms input c) pl0
           else Pubs.seenPlatforms input c) := by
        intro c
        unfold Pubs.seenPlatforms
        rw [survivorPlatformsOf_snoc_some input r c0 pl0 fp hr c]
        by_cases hc : c = c0
        · rw [if_pos hc, if_pos hc, seenList_snoc]
        · rw [if_neg hc, if_neg hc, List.append_nil]
      have hnodup : ((Pubs.groupPubs input).map Prod.fst).Nodup := by
        rw [ih.1]
        exact nodup_seenList _
      have h0 : c0 ∉ (Pubs.groupPubs input).map Prod.fst →
          Pubs.seenPlatforms input c0 = [] := by
        intro hnm
        rw [ih.1] at hnm
        have hnc : c0 ∉ Pubs.survivorCampuses input := fun hm => hnm ((mem_seenList _ _).mpr hm)
        unfold Pubs.seenPlatforms
        rw [platsOf_nil_of_not_campus input c0 hnc]
        rfl
      have h1 : pl0 ∉ Pubs.seenPlatforms input c0 → Pubs.survivors input c0 pl0 = [] := by
        intro hnm
        exact survivors_nil_of_not_plat input c0 pl0 (fun hm => hnm ((mem_seenList _ _).mpr hm))
      have hmain := insertOuter_content c0 pl0 fp (Pubs.groupPubs input) hnodup
        (fun c => nodup_seenList _) ih.2 h0 h1
      constructor
      · rw [hg, insertOuter_keys, ih.1, hsc]
      · intro c inner hmem
        rw [hg] at hmem
        obtain ⟨hkeys, hcontent⟩ := hmain c inner hmem
        constructor
        · rw [hkeys, hsp c]
          rfl
        · intro pl ps hm
          rw [hcontent pl ps hm, survivors_snoc_some input r c0 pl0 fp hr c pl]
          by_cases hcond : c = c0 ∧ pl = pl0
          · rw [if_pos hcond, if_pos hcond]
          · rw [if_neg hcond, if_neg hcond, List.append_nil]

/-- A surviving triple records the record's platform classification and its
filtered projection. -/
theorem processRec_platform (r : Pubs.RawPub) (c pl : String) (fp : Pubs.Publication)
    (h : Pubs.processRec r = some (c, pl, fp)) :
    Pubs.classifyPlatform r.SOCIAL_NETWORK = some pl ∧ fp = Pubs.mkFiltered r := by
  unfold Pubs.processRec at h
  rcases h1 : Pubs.extractCampusId r.ACCOUNT with _ | cid
  · rw [h1] at h
    cases h
  · rw [h1] at h
    rcases h2 : Pubs.classifyPlatform r.SOCIAL_NETWORK with _ | pl'
    · rw [h2] at h
      cases h
    · rw [h2] at h
      injection h with h3
      injection h3 with e1 h4
      injection h4 with e2 e3
      exact ⟨by rw [e2], e3.symm⟩

/-- The platform classification only ever yields the two platform names. -/
theorem classify_values (sn pl : String) (h : Pubs.classifyPlatform sn = some pl) :
    pl = "instagram" ∨ pl = "facebook" := by
  unfold Pubs.classifyPlatform at h
  split_ifs at h
  · exact Or.inl (Option.some.inj h).symm
  · exact Or.inr (Option.some.inj h).symm

/-- A classified record's network text contains one of the two platform
substrings. -/
theorem classify_substr (sn pl : String) (h : Pubs.classifyPlatform sn = some pl) :
    strContains (lowerStr sn) "instagram" = true ∨
    strContains (lowerStr sn) "facebook" = true := by
  unfold Pubs.classifyPlatform at h
  split_ifs at h with h1 h2
  · exact Or.inl h1
  · exact Or.inr h2

/-- Every seen platform is instagram or facebook. -/
theorem platsOf_values (input : List Pubs.RawPub) (c : String) :
    ∀ pl ∈ Pubs.survivorPlatformsOf input c, pl = "instagram" ∨ pl = "facebook" := by
  induction input with
  | nil => intro pl h; exact absurd h (List.not_mem_nil pl)
  | cons r input ih =>
    intro pl h
    rcases hr : Pubs.processRec r with _ | ⟨c0, pl0, fp⟩
    · refine ih pl ?_
      unfold Pubs.survivorPlatformsOf at h ⊢
      simpa [List.filterMap_cons, hr] using h
    · by_cases hc : c0 = c
      · unfold Pubs.survivorPlatformsOf at h
        simp [List.filterMap_cons, hr, hc] at h
        rcases h with rfl | hm
        · exact (processRec_platform r c0 pl fp hr).1 |> classify_values r.SOCIAL_NETWORK pl
        · exact ih pl (List.mem_filterMap.mpr hm)
      · refine ih pl ?_
        unfold Pubs.survivorPlatformsOf at h ⊢
        simpa [List.filterMap_cons, hr, hc] using h

/-- Every survivor's network text classifies to its own platform. -/
theorem survivors_classify (input : List Pubs.RawPub) (c pl : String) :
    ∀ p ∈ Pubs.survivors input c pl, Pubs.classifyPlatform p.SOCIAL_NETWORK = some pl := by
  induction input with
  | nil => intro p h; exact absurd h (List.not_mem_nil p)
  | cons r input ih =>
    intro p h
    rcases hr : Pubs.processRec r with _ | ⟨c0, pl0, fp⟩
    · refine ih p ?_
      unfold Pubs.survivors at h ⊢
      simpa [List.filterMap_cons, hr] using h
    · by_cases hcond : c0 = c ∧ pl0 = pl
      · unfold Pubs.survivors at h
        simp [List.filterMap_cons, hr, hcond.1, hcond.2] at h
        rcases h with rfl | hm
        · have hf := processRec_platform r c0 pl0 p hr
          rw [hf.2]
          show Pubs.classifyPlatform r.SOCIAL_NETWORK = some pl
          rw [hf.1, hcond.2]
        · exact ih p (List.mem_filterMap.mpr hm)
      · refine ih p ?_
        unfold Pubs.survivors at h ⊢
        simpa [List.filterMap_cons, hr, hcond] using h

/-- `campusPubs` over a cons: the head platform's truncated block followed
by the rest. -/
theorem campusPubs_cons (e : String × List Pubs.Publication) (inner : Pubs.Inner) :
    Pubs.campusPubs (e :: inner) =
      (if Pubs.platformLimit e.1 > 0
       then (Pubs.sortDesc e.2).take (Pubs.platformLimit e.1) else []) ++
        Pubs.campusPubs inner := by
  unfold Pubs.campusPubs
  rw [List.flatMap_cons]

/-- The per-campus output list is the concatenation of the per-platform
kept blocks, platforms in inner-dict (first-seen) order. -/
theorem campusPubs_spec (input : List Pubs.RawPub) (c : String) (inner : Pubs.Inner)
    (hvals : ∀ pl ∈ inner.map Prod.fst, pl = "instagram" ∨ pl = "facebook")
    (hps : ∀ pl ps, (pl, ps) ∈ inner → ps = Pubs.survivors input c pl) :
    Pubs.campusPubs inner =
      (inner.map Prod.fst).flatMap
        (fun pl => (Pubs.sortDesc (Pubs.survivors input c pl)).take 4) := by
  induction inner with
  | nil => rfl
  | cons e inner ih =>
    obtain ⟨pl, ps⟩ := e
    have hlim : Pubs.platformLimit pl = 4 := by
      rcases hvals pl (by simp) with rfl | rfl <;> decide
    have hps0 : ps = Pubs.survivors input c pl := hps pl ps (List.mem_cons_self _ _)
    rw [campusPubs_cons, List.map_cons, List.flatMap_cons,
      ih (fun pl' h => hvals pl' (by simp [h])) (fun pl' ps' hm => hps pl' ps' (List.mem_cons_of_mem _ hm)),
      hlim, hps0]
    norm_num

/-- Filtering the per-campus output by a platform test extracts exactly
that platform's kept block (or nothing if the platform was never seen). -/
theorem campusPubs_filter (input : List Pubs.RawPub) (c pl : String) (inner : Pubs.Inner)
    (hvals : ∀ pl' ∈ inner.map Prod.fst, pl' = "instagram" ∨ pl' = "facebook")
    (hps : ∀ pl' ps, (pl', ps) ∈ inner → ps = Pubs.survivors input c pl')
    (hnd : (inner.map Prod.fst).Nodup) :
    (Pubs.campusPubs inner).filter
        (fun p => Pubs.classifyPlatform p.SOCIAL_NETWORK = some pl) =
      (if pl ∈ inner.map Prod.fst
       then (Pubs.sortDesc (Pubs.survivors input c pl)).take 4 else []) := by
  induction inner with
  | nil => simp [Pubs.campusPubs]
  | cons e inner ih =>
    obtain ⟨k, ps⟩ := e
    rw [List.map_cons, List.nodup_cons] at hnd
    obtain ⟨hknotin, hndtail⟩ := hnd
    have hlim : Pubs.platformLimit k = 4 := by
      rcases hvals k (by simp) with rfl | rfl <;> decide
    have hps0 : ps = Pubs.survivors input c k := hps k ps (List.mem_cons_self _ _)
    have hclass : ∀ p ∈ (Pubs.sortDesc (Pubs.survivors input c k)).take 4,
        Pubs.classifyPlatform p.SOCIAL_NETWORK = some k := by
      intro p hp
      have hmem : p ∈ Pubs.sortDesc (Pubs.survivors input c k) := List.take_subset _ _ hp
      exact survivors_classify input c k p ((mem_sortDesc p _).mp hmem)
    have ih' := ih (fun pl' h => hvals pl' (by simp [h]))
      (fun pl' ps' hm => hps pl' ps' (List.mem_cons_of_mem _ hm)) hndtail
    rw [campusPubs_cons, List.filter_append, hlim, hps0,
      if_pos (by decide : (4:Nat) > 0), ih']
    by_cases hkpl : k = pl
    · subst hkpl
      rw [List.filter_eq_self.mpr (fun p hp => by simp [hclass p hp]),
        if_neg hknotin, List.append_nil, if_pos (by simp [List.mem_cons])]
    · have hne : ¬ pl = k := fun e => hkpl e.symm
      rw [List.filter_eq_nil_iff.mpr (fun p hp => by simp [hclass p hp, hkpl]),
        List.nil_append]
      by_cases hm : pl ∈ inner.map Prod.fst <;>
        simp [List.mem_cons, hm, hne]

/-- Every per-platform kept block has at most 4 records. -/
theorem block_len_le (e : String × List Pubs.Publication) :
    ((if Pubs.platformLimit e.1 > 0
      then (Pubs.sortDesc e.2).take (Pubs.platformLimit e.1)
      else []) : List Pubs.Publication).length ≤ 4 := by
  unfold Pubs.platformLimit
  split_ifs <;> simp [List.length_take]

/-- A duplicate-free list over the two platform names has length at most
2. -/
theorem nodup_two_vals (l : List String) (hnd : l.Nodup)
    (hvals : ∀ x ∈ l, x = "instagram" ∨ x = "facebook") : l.length ≤ 2 := by
  rcases l with _ | ⟨a, _ | ⟨b, _ | ⟨c, t⟩⟩⟩
  · simp
  · simp
  · simp
  · exfalso
    rw [List.nodup_cons] at hnd
    obtain ⟨ha, hnd⟩ := hnd
    rw [List.nodup_cons] at hnd
    obtain ⟨hb, _⟩ := hnd
    have hab : a ≠ b := fun e => ha (by rw [e]; exact List.mem_cons_self _ _)
    have hac : a ≠ c := fun e =>
      ha (by rw [e]; exact List.mem_cons_of_mem _ (List.mem_cons_self _ _))
    have hbc : b ≠ c := fun e => hb (by rw [e]; exact List.mem_cons_self _ _)
    rcases hvals a (by simp) with ha' | ha' <;> rcases hvals b (by simp) with hb' | hb' <;>
      rcases hvals c (by simp) with hc' | hc' <;> simp_all

/-- At most two platforms means at most 8 records per campus. -/
theorem campusPubs_len_le (inner : Pubs.Inner) (h2 : inner.length ≤ 2) :
    (Pubs.campusPubs inner).length ≤ 8 := by
  rcases inner with _ | ⟨e1, _ | ⟨e2, _ | ⟨e3, t⟩⟩⟩
  · simp [Pubs.campusPubs]
  · rw [campusPubs_cons]
    have hb := block_len_le e1
    have hz : (Pubs.campusPubs ([] : Pubs.Inner)).length = 0 := rfl
    rw [List.length_append, hz]
    omega
  · rw [campusPubs_cons, campusPubs_cons]
    have hb1 := block_len_le e1
    have hb2 := block_len_le e2
    have hz : (Pubs.campusPubs ([] : Pubs.Inner)).length = 0 := rfl
    rw [List.length_append, List.length_append, hz]
    omega
  · exfalso
    simp [List.length_cons] at h2

/-- C1 (amended): in every emitted CampusPublicationGroup, the publications
list is the concatenation of the campus's kept per-platform blocks, with
platforms ordered by the first appearance of each platform among the
campus's surviving records — Instagram precedes Facebook exactly when an
Instagram record arrives first, so the order does depend on input arrival
order. -/
theorem c1_platform_first_seen_order (input : List Pubs.RawPub) (g : Pubs.CampusGroup)
    (hg : g ∈ Pubs.filter_publications input) :
    g.publications = (Pubs.seenPlatforms input g.campus_id).flatMap
      (fun pl => (Pubs.sortDesc (Pubs.survivors input g.campus_id pl)).take 4) := by
  obtain ⟨e, he, hfe⟩ := List.mem_map.mp hg
  obtain ⟨c, inner⟩ := e
  obtain ⟨hkeys, hps⟩ := (groupPubs_good input).2 c inner he
  have hvals : ∀ pl ∈ inner.map Prod.fst, pl = "instagram" ∨ pl = "facebook" := by
    intro pl hm
    rw [hkeys] at hm
    exact platsOf_values input c pl ((mem_seenList _ _).mp hm)
  rw [← hfe]
  show Pubs.campusPubs inner = (Pubs.seenPlatforms input c).flatMap _
  rw [campusPubs_spec input c inner hvals hps, hkeys]

/-- C1 (counterexample): with a Facebook record arriving before an
Instagram record for the same campus, the output group's publications list
is NOT the kept Instagram records followed by the kept Facebook records —
the Facebook block comes first. -/
theorem c1_counterexample :
    ¬ (∀ g ∈ Pubs.filter_publications [rFBc, rIGc],
        g.publications =
          g.publications.filter
              (fun p => Pubs.classifyPlatform p.SOCIAL_NETWORK = some "instagram") ++
            g.publications.filter
              (fun p => Pubs.classifyPlatform p.SOCIAL_NETWORK = some "facebook")) := by
  decide

/-- C1 (witness): a single Instagram record yields a group whose
publications equal the first-seen-platform concatenation. -/
theorem c1_witness :
    gW.publications = (Pubs.seenPlatforms [rIGw] gW.campus_id).flatMap
      (fun pl => (Pubs.sortDesc (Pubs.survivors [rIGw] gW.campus_id pl)).take 4) :=
  c1_platform_first_seen_order [rIGw] gW (by decide)

/-- C3: every output group keeps at most 4 Instagram and at most 4 Facebook
records (hence at most 8 in total); within each platform's subset the
records are in non-increasing engagement-score order, and each fixed-score
slice is an initial segment of that campus/platform's surviving records in
input order (stable ties). -/
theorem c3_quota_sorted_stable (input : List Pubs.RawPub) (g : Pubs.CampusGroup)
    (hg : g ∈ Pubs.filter_publications input) :
    (Pubs.platOf g "instagram").length ≤ 4 ∧
    (Pubs.platOf g "facebook").length ≤ 4 ∧
    g.publications.length ≤ 8 ∧
    ∀ pl, pl = "instagram" ∨ pl = "facebook" →
      List.Pairwise (fun a b => b.engagement_score ≤ a.engagement_score) (Pubs.platOf g pl) ∧
      ∀ s : Int, (Pubs.platOf g pl).filter (fun p => p.engagement_score = s) <+:
        (Pubs.survivors input g.campus_id pl).filter (fun p => p.engagement_score = s) := by
  obtain ⟨e, he, hfe⟩ := List.mem_map.mp hg
  obtain ⟨c, inner⟩ := e
  obtain ⟨hkeys, hps⟩ := (groupPubs_good input).2 c inner he
  have hvals : ∀ pl ∈ inner.map Prod.fst, pl = "instagram" ∨ pl = "facebook" := by
    intro pl hm
    rw [hkeys] at hm
    exact platsOf_values input c pl ((mem_seenList _ _).mp hm)
  have hnd : (inner.map Prod.fst).Nodup := by
    rw [hkeys]
    exact nodup_seenList _
  rw [← hfe]
  have hblock : ∀ pl, Pubs.platOf { campus_id := c, publications := Pubs.campusPubs inner } pl =
      (if pl ∈ inner.map Prod.fst
       then (Pubs.sortDesc (Pubs.survivors input c pl)).take 4 else []) := by
    intro pl
    show (Pubs.campusPubs inner).filter _ = _
    exact campusPubs_filter input c pl inner hvals hps hnd
  refine ⟨?_, ?_, ?_, ?_⟩
  · rw [hblock "instagram"]
    split_ifs
    · rw [List.length_take]
      exact Nat.min_le_left _ _
    · simp
  · rw [hblock "facebook"]
    split_ifs
    · rw [List.length_take]
      exact Nat.min_le_left _ _
    · simp
  · show (Pubs.campusPubs inner).length ≤ 8
    refine campusPubs_len_le inner ?_
    have hlm : inner.length = (inner.map Prod.fst).length := (List.length_map _ _).symm
    rw [hlm]
    exact nodup_two_vals _ hnd hvals
  · intro pl hpl
    constructor
    · rw [hblock pl]
      split_ifs
      · exact List.Pairwise.sublist (List.take_sublist _ _) (pairwise_sortDesc _)
      · simp
    · intro s
      rw [hblock pl]
      split_ifs
      · have hpre := filter_take_pre
          (fun p : Pubs.Publication => decide (p.engagement_score = s)) 4
          (Pubs.sortDesc (Pubs.survivors input c pl))
        rw [filter_score_sortDesc] at hpre
        exact hpre
      · exact ⟨_, List.nil_append _⟩

/-- C3 (witness): the single-record instance, via `c3_quota_sorted_stable`. -/
theorem c3_witness :
    (Pubs.platOf gW "instagram").length ≤ 4 ∧
    gW.publications.length ≤ 8 ∧
    List.Pairwise (fun a b => b.engagement_score ≤ a.engagement_score)
      (Pubs.platOf gW "instagram") ∧
    (Pubs.platOf gW "instagram").filter (fun p => p.engagement_score = 30) <+:
      (Pubs.survivors [rIGw] gW.campus_id "instagram").filter
        (fun p => p.engagement_score = 30) := by
  have h := c3_quota_sorted_stable [rIGw] gW (by decide)
  exact ⟨h.1, h.2.2.1, (h.2.2.2 "instagram" (Or.inl rfl)).1,
    (h.2.2.2 "instagram" (Or.inl rfl)).2 30⟩

/-- C8: every emitted publication's SOCIAL_NETWORK contains (case-
insensitively) "instagram" or "facebook" — records of any other platform
are dropped entirely — and every emitted campus group is nonempty, so a
campus all of whose records were dropped never appears. -/
theorem c8_platform_filter_total (input : List Pubs.RawPub) (g : Pubs.CampusGroup)
    (hg : g ∈ Pubs.filter_publications input) :
    g.publications ≠ [] ∧
    ∀ p ∈ g.publications,
      strContains (lowerStr p.SOCIAL_NETWORK) "instagram" = true ∨
      strContains (lowerStr p.SOCIAL_NETWORK) "facebook" = true := by
  obtain ⟨e, he, hfe⟩ := List.mem_map.mp hg
  obtain ⟨c, inner⟩ := e
  obtain ⟨hkeys, hps⟩ := (groupPubs_good input).2 c inner he
  rw [← hfe]
  constructor
  · show Pubs.campusPubs inner ≠ []
    have hcmem : c ∈ (Pubs.groupPubs input).map Prod.fst := List.mem_map_of_mem Prod.fst he
    rw [(groupPubs_good input).1] at hcmem
    have hcsurv : c ∈ Pubs.survivorCampuses input := (mem_seenList _ _).mp hcmem
    have hplats := platsOf_ne_nil_of_mem input c hcsurv
    rcases inner with _ | ⟨⟨pl1, ps1⟩, rest⟩
    · obtain ⟨x, hx⟩ := List.exists_mem_of_ne_nil _ hplats
      have hxs : x ∈ Pubs.seenPlatforms input c := (mem_seenList _ _).mpr hx
      rw [← hkeys] at hxs
      exact absurd hxs (List.not_mem_nil x)
    · have hpl1 : pl1 ∈ Pubs.seenPlatforms input c := by
        rw [← hkeys]
        simp
      have hsurv1 : Pubs.survivors input c pl1 ≠ [] :=
        survivors_ne_nil_of_mem input c pl1 ((mem_seenList _ _).mp hpl1)
      have hps1 : ps1 = Pubs.survivors input c pl1 := hps pl1 ps1 (List.mem_cons_self _ _)
      have hlim : Pubs.platformLimit pl1 = 4 := by
        rcases platsOf_values input c pl1 ((mem_seenList _ _).mp hpl1) with rfl | rfl <;> decide
      rw [campusPubs_cons, hlim, if_pos (by decide : (4:Nat) > 0)]
      intro hnil
      have h0 : (Pubs.sortDesc ps1).take 4 = [] := (List.append_eq_nil.mp hnil).1
      have hsnil : Pubs.sortDesc ps1 = [] := by
        rcases List.take_eq_nil_iff.mp h0 with h | h
        · exact absurd h (by decide)
        · exact h
      have hlen0 : ps1.length = 0 := by
        have hc := congrArg List.length hsnil
        rw [length_sortDesc] at hc
        exact hc
      exact hsurv1 (hps1.symm.trans (List.length_eq_zero.mp hlen0))
  · intro p hp
    have hp' : p ∈ Pubs.campusPubs inner := hp
    unfold Pubs.campusPubs at hp'
    obtain ⟨e', he', hpe⟩ := List.mem_flatMap.mp hp'
    obtain ⟨pl', ps'⟩ := e'
    have hpe' : p ∈ (Pubs.sortDesc ps').take (Pubs.platformLimit pl') := by
      by_cases hl : Pubs.platformLimit pl' > 0
      · simpa [hl] using hpe
      · simp [hl] at hpe
    have hmem2 : p ∈ Pubs.sortDesc ps' := List.take_subset _ _ hpe'
    have hps' : ps' = Pubs.survivors input c pl' := hps pl' ps' he'
    have hclass := survivors_classify input c pl' p
      (by rw [← hps']; exact (mem_sortDesc p ps').mp hmem2)
    exact classify_substr _ _ hclass

/-- C8 (witness): the single-record instance, via
`c8_platform_filter_total`. -/
theorem c8_witness :
    gW.publications ≠ [] ∧
    ∀ p ∈ gW.publications,
      strContains (lowerStr p.SOCIAL_NETWORK) "instagram" = true ∨
      strContains (lowerStr p.SOCIAL_NETWORK) "facebook" = true :=
  c8_platform_filter_total [rIGw] gW (by decide)
